import Mathlib

/-!
# The query representation of reindexer: wire codec and textual parser

A shallow embedding of `cpp_src/core/query/query.cc`.  A `std::string` is the list of its
bytes, the read buffer of a `Serializer` is the list of the bytes that are still unread,
and a `WrSerializer` is the list of the bytes written so far.  C++ `int` is a 32 bit
two's complement integer, `unsigned` a natural number below `2^32`; an enumeration is
kept as the `int` it is cast from and to.
-/

namespace reindexer

/-! ## Bytes, strings and the serializer -/

abbrev Byte := Fin 256

abbrev Str := List Byte

/-- The bytes of a string literal, one byte per (ASCII) character. -/
def str (s : String) : Str := s.toList.map (fun c => Fin.ofNat c.toNat)

/-- The `k` low bytes of `v`, least significant byte first. -/
def putLE : Nat → Nat → List Byte
  | 0, _ => []
  | k + 1, v => Fin.ofNat (v % 256) :: putLE k (v / 256)

/-- The number whose little-endian digits are the given bytes. -/
def getLE : List Byte → Nat
  | [] => 0
  | b :: bs => b.val + 256 * getLE bs

/-- Conversion of a C++ `int` (or of a wider integer) to `unsigned`. -/
def toUInt32 (v : Int) : Nat := (v % 4294967296).toNat

/-- The `int` with the given 32 bit pattern. -/
def toInt32 (n : Nat) : Int := if n < 2147483648 then (n : Int) else (n : Int) - 4294967296

/-- What can stop a read: the buffer ends inside an item, a value has an unknown type tag,
or the model's iteration budget is used up (`deserializeLoop_fuel`: the budget given
is never what stops the loop). -/
inductive WireError
  | truncated
  | badValue
  | fuel
  deriving DecidableEq, Repr

/-- The result of a read: the item and the bytes left, or the reason of the failure. -/
abbrev Rd (α : Type) := Except WireError (α × List Byte)

/-- Modelled from the spec: `WrSerializer::PutInt` (tools/serializer.h is not part of the
sources at hand).  An `int32` is written as four bytes. -/
def PutInt (v : Int) : List Byte := putLE 4 (toUInt32 v)

/-- Modelled from the spec: `Serializer::GetInt`, the reader of `PutInt`; it fails when
fewer than four bytes are left. -/
def GetInt (ser : List Byte) : Rd Int :=
  if 4 ≤ ser.length then .ok (toInt32 (getLE (ser.take 4)), ser.drop 4) else .error .truncated

/-- Modelled from the spec: `WrSerializer::PutString`, a `str` payload: the length as an
`int`, then the bytes of the string. -/
def PutString (s : Str) : List Byte := PutInt s.length ++ s

/-- Modelled from the spec: `Serializer::GetString`, the reader of `PutString`; it fails on
a negative length and when the buffer holds fewer bytes than the length says. -/
def GetString (ser : List Byte) : Rd Str :=
  match GetInt ser with
  | .error e => .error e
  | .ok (l, ser1) =>
    if 0 ≤ l ∧ l.toNat ≤ ser1.length then .ok (ser1.take l.toNat, ser1.drop l.toNat)
    else .error .truncated

/-- Reads `n` items one after the other with the reader `get`. -/
def getN {α : Type} (get : List Byte → Rd α) : Nat → List Byte → Rd (List α)
  | 0, ser => .ok ([], ser)
  | n + 1, ser =>
    match get ser with
    | .error e => .error e
    | .ok (v, ser1) =>
      match getN get n ser1 with
      | .error e => .error e
      | .ok (vs, ser2) => .ok (v :: vs, ser2)

/-- Writes the items of a list one after the other with the writer `put`. -/
def putAll {α : Type} (put : α → List Byte) : List α → List Byte
  | [] => []
  | v :: vs => put v ++ putAll put vs

/-! ## Typed values -/

/-- A scalar of the closed variant of the spec; a floating-point number is kept as its
64 bit pattern. -/
inductive Scalar
  | int (v : Int)
  | double (bits : Nat)
  | string (s : Str)
  | bool (b : Bool)
  deriving DecidableEq, Repr

/-- A typed value: a scalar or an array of scalars. -/
inductive KeyValue
  | scalar (v : Scalar)
  | composite (vs : List Scalar)
  deriving DecidableEq, Repr

abbrev KeyValueInt : Int := 0
abbrev KeyValueDouble : Int := 1
abbrev KeyValueString : Int := 2
abbrev KeyValueBool : Int := 3
abbrev KeyValueComposite : Int := 4

/-- Modelled from the spec: the writer of one scalar of the typed value codec (an external
collaborator of the query code): a type tag, then the payload. -/
def putScalar : Scalar → List Byte
  | .int v => PutInt KeyValueInt ++ PutInt v
  | .double bits => PutInt KeyValueDouble ++ putLE 8 bits
  | .string s => PutInt KeyValueString ++ PutString s
  | .bool b => PutInt KeyValueBool ++ PutInt (if b then 1 else 0)

/-- Modelled from the spec: the reader of `putScalar`. -/
def getScalar (ser : List Byte) : Rd Scalar :=
  match GetInt ser with
  | .error e => .error e
  | .ok (t, ser1) =>
    if t = KeyValueInt then
      match GetInt ser1 with
      | .error e => .error e
      | .ok (v, ser2) => .ok (.int v, ser2)
    else if t = KeyValueDouble then
      if 8 ≤ ser1.length then .ok (.double (getLE (ser1.take 8)), ser1.drop 8)
      else .error .truncated
    else if t = KeyValueString then
      match GetString ser1 with
      | .error e => .error e
      | .ok (s, ser2) => .ok (.string s, ser2)
    else if t = KeyValueBool then
      match GetInt ser1 with
      | .error e => .error e
      | .ok (v, ser2) => .ok (.bool (decide (v ≠ 0)), ser2)
    else .error .badValue

/-- Modelled from the spec: `WrSerializer::PutValue` of the typed value codec. -/
def PutValue : KeyValue → List Byte
  | .scalar v => putScalar v
  | .composite vs => PutInt KeyValueComposite ++ PutInt vs.length ++ putAll putScalar vs

/-- Modelled from the spec: `Serializer::GetValue`, the reader of `PutValue`. -/
def GetValue (ser : List Byte) : Rd KeyValue :=
  match GetInt ser with
  | .error e => .error e
  | .ok (t, ser1) =>
    if t = KeyValueComposite then
      match GetInt ser1 with
      | .error e => .error e
      | .ok (n, ser2) =>
        match getN getScalar (toUInt32 n) ser2 with
        | .error e => .error e
        | .ok (vs, ser3) => .ok (.composite vs, ser3)
    else
      match getScalar ser with
      | .error e => .error e
      | .ok (v, ser2) => .ok (.scalar v, ser2)

/-! ## Enumerations of `type_consts.h` -/

/-- Modelled from the spec: the tags of the wire format, numbered in the order of the tag
table of the spec (the header with the enumerators is not part of the sources at hand). -/
abbrev QueryCondition : Int := 0
abbrev QueryDistinct : Int := 1
abbrev QueryAggregation : Int := 2
abbrev QuerySortIndex : Int := 3
abbrev QueryJoinOn : Int := 4
abbrev QueryDebugLevel : Int := 5
abbrev QueryLimit : Int := 6
abbrev QueryOffset : Int := 7
abbrev QueryReqTotal : Int := 8
abbrev QuerySelectFilter : Int := 9
abbrev QueryEnd : Int := 10

/-- Modelled from the spec: `JoinType`, `{InnerJoin, OrInnerJoin, LeftJoin, Merge}`. -/
abbrev InnerJoin : Int := 0
abbrev OrInnerJoin : Int := 1
abbrev LeftJoin : Int := 2
abbrev Merge : Int := 3

/-- Modelled from the spec: `CalcTotalMode`, `{Disabled, Accurate, Cached}`. -/
abbrev ModeNoTotal : Int := 0
abbrev ModeAccurateTotal : Int := 1
abbrev ModeCachedTotal : Int := 2

/-- Modelled from the spec: `CondType`, `{Any, Empty, Equal, Greater, GreaterOrEqual, Less,
LessOrEqual, Range, Set}`. -/
abbrev CondAny : Int := 0
abbrev CondEmpty : Int := 1
abbrev CondEq : Int := 2
abbrev CondGt : Int := 3
abbrev CondGe : Int := 4
abbrev CondLt : Int := 5
abbrev CondLe : Int := 6
abbrev CondRange : Int := 7
abbrev CondSet : Int := 8

/-- Modelled from the spec: `OpType`, `{And, Or, Not}`. -/
abbrev OpAnd : Int := 0
abbrev OpOr : Int := 1
abbrev OpNot : Int := 2

abbrev AggSum : Int := 0
abbrev AggAvg : Int := 1

abbrev UINT_MAX : Nat := 4294967295

/-- The bits of the `mode` argument of `Query::Serialize`. -/
abbrev Normal : Nat := 0
abbrev SkipJoinQueries : Nat := 1
abbrev SkipMergeQueries : Nat := 2
abbrev SkipLimitOffset : Nat := 4

/-! ## The data model -/

/-- A filter predicate (`QueryEntry`); a default-constructed entry is `{}`. -/
structure QueryEntry where
  op : Int := OpAnd
  condition : Int := CondAny
  index : Str := []
  distinct : Bool := false
  values : List KeyValue := []
  deriving DecidableEq, Repr

/-- A join predicate (`QueryJoinEntry`). -/
structure QueryJoinEntry where
  op_ : Int := OpAnd
  condition_ : Int := CondAny
  index_ : Str := []
  joinIndex_ : Str := []
  deriving DecidableEq, Repr

/-- An aggregation: the field and the `AggType`. -/
structure AggregateEntry where
  index_ : Str
  type_ : Int
  deriving DecidableEq, Repr

/-- The class `Query`, with the members of its base `QueryWhere` (`entries`,
`aggregations_`, `joinEntries_`). -/
structure Query where
  joinQueries_ : List Query
  mergeQueries_ : List Query
  _namespace : Str
  entries : List QueryEntry
  aggregations_ : List AggregateEntry
  joinEntries_ : List QueryJoinEntry
  sortBy : Str
  sortDirDesc : Bool
  forcedSortOrder : List KeyValue
  calcTotal : Int
  describe : Bool
  start : Nat
  count : Nat
  debugLevel : Int
  joinType : Int
  selectFilter_ : List Str
  namespacesNames_ : List Str

/-- The constructor `Query(namespace, start, count, calcTotal)` of query.cc.  Modelled from
the spec: the default arguments (`start = 0`, `count = UINT_MAX`, `calcTotal = ModeNoTotal`)
and the initial values of the members the constructor does not name (empty sequences,
ascending order, debug level 0, not a describe query, join kind `LeftJoin`), which are in
query.h. -/
def Query.new (ns : Str) (start : Nat := 0) (count : Nat := UINT_MAX)
    (calcTotal : Int := ModeNoTotal) : Query :=
  ⟨[], [], ns, [], [], [], [], false, [], calcTotal, false, start, count, 0, LeftJoin, [], []⟩

/-- A fresh `Query`, as `Deserialize` and `Parse` receive it. -/
def Query.fresh : Query := Query.new []

/-! ## Writing: `Query::Serialize` -/

/-- The record of one element of `entries` (body of the first loop of `Serialize`). -/
def putEntry (qe : QueryEntry) : List Byte :=
  (if qe.distinct then PutInt QueryDistinct else PutInt QueryCondition) ++
  PutString qe.index ++
  (if qe.distinct then []
   else PutInt qe.op ++ PutInt qe.condition ++ PutInt qe.values.length ++
        putAll PutValue qe.values)

/-- The record of one aggregation. -/
def putAgg (agg : AggregateEntry) : List Byte :=
  PutInt QueryAggregation ++ PutString agg.index_ ++ PutInt agg.type_

/-- The record of one join predicate. -/
def putJoinEntry (qje : QueryJoinEntry) : List Byte :=
  PutInt QueryJoinOn ++ PutInt qje.op_ ++ PutInt qje.condition_ ++
  PutString qje.index_ ++ PutString qje.joinIndex_

/-- The record of one projected field. -/
def putSelectFilter (sf : Str) : List Byte := PutInt QuerySelectFilter ++ PutString sf

/-- The block `if (!sortBy.empty()) { ... }` of `Query::Serialize`. -/
def putSortIndex (q : Query) : List Byte :=
  if q.sortBy ≠ [] then
    PutInt QuerySortIndex ++ PutString q.sortBy ++ PutInt (if q.sortDirDesc then 1 else 0) ++
    PutInt q.forcedSortOrder.length ++ putAll PutValue q.forcedSortOrder
  else []

/-- The block `if (!(mode & SkipLimitOffset)) { if (count) ...; if (start) ... }`. -/
def putLimitOffset (q : Query) (mode : Nat) : List Byte :=
  if mode &&& SkipLimitOffset = 0 then
    (if q.count ≠ 0 then PutInt QueryLimit ++ PutInt q.count else []) ++
    (if q.start ≠ 0 then PutInt QueryOffset ++ PutInt q.start else [])
  else []

/-- The block `if (calcTotal) { ... }`. -/
def putReqTotal (q : Query) : List Byte :=
  if q.calcTotal ≠ 0 then PutInt QueryReqTotal ++ PutInt q.calcTotal else []

/-- The part of `Query::Serialize` up to and including `ser.PutInt(QueryEnd)`: the
namespace, the records of the query's own fields in the order of the statements, and the
end tag. -/
def serializeFields (q : Query) (mode : Nat) : List Byte :=
  PutString q._namespace ++
  putAll putEntry q.entries ++
  putAll putAgg q.aggregations_ ++
  putSortIndex q ++
  putAll putJoinEntry q.joinEntries_ ++
  (PutInt QueryDebugLevel ++ PutInt q.debugLevel) ++
  putLimitOffset q mode ++
  putReqTotal q ++
  putAll putSelectFilter q.selectFilter_ ++
  PutInt QueryEnd

mutual
/-- The bytes `Query::Serialize(ser, mode)` appends to `ser`. -/
def Query.Serialize : Query → Nat → List Byte
  | q@(.mk jq mq ..), mode =>
    serializeFields q mode ++
    (if mode &&& SkipJoinQueries = 0 then serializeChildren jq else []) ++
    (if mode &&& SkipMergeQueries = 0 then serializeChildren mq else [])
termination_by structural q => q
/-- The loops over `joinQueries_` and `mergeQueries_`: the join kind of each child, then
the child in the default mode. -/
def serializeChildren : List Query → List Byte
  | [] => []
  | jq :: rest => PutInt jq.joinType ++ jq.Serialize Normal ++ serializeChildren rest
termination_by structural l => l
end

/-! ## Reading: `Query::deserialize` and `Query::Deserialize` -/

/-- The body of `case QueryCondition` of `Query::deserialize`.  `reserve` only sets a
capacity; `while (count--)` runs once for each value of the counter down to zero, which
for a 32 bit counter is `count` taken as an unsigned number. -/
def deserializeCondition (q : Query) (ser1 : List Byte) : Rd Query :=
  match GetString ser1 with
  | .error e => .error e
  | .ok (index, ser2) =>
  match GetInt ser2 with
  | .error e => .error e
  | .ok (op, ser3) =>
  match GetInt ser3 with
  | .error e => .error e
  | .ok (condition, ser4) =>
  match GetInt ser4 with
  | .error e => .error e
  | .ok (count, ser5) =>
  match getN GetValue (toUInt32 count) ser5 with
  | .error e => .error e
  | .ok (values, ser6) =>
    .ok ({ q with entries := q.entries ++
            [{ index := index, op := op, condition := condition, values := values }] }, ser6)

/-- The body of `case QueryAggregation`. -/
def deserializeAggregation (q : Query) (ser1 : List Byte) : Rd Query :=
  match GetString ser1 with
  | .error e => .error e
  | .ok (index, ser2) =>
  match GetInt ser2 with
  | .error e => .error e
  | .ok (type, ser3) => .ok ({ q with aggregations_ := q.aggregations_ ++ [⟨index, type⟩] }, ser3)

/-- The body of `case QueryDistinct`. -/
def deserializeDistinct (q : Query) (ser1 : List Byte) : Rd Query :=
  match GetString ser1 with
  | .error e => .error e
  | .ok (index, ser2) =>
    .ok ({ q with entries := q.entries ++
            [{ index := index, distinct := true, condition := CondAny }] }, ser2)

/-- The body of `case QuerySortIndex`. -/
def deserializeSortIndex (q : Query) (ser1 : List Byte) : Rd Query :=
  match GetString ser1 with
  | .error e => .error e
  | .ok (sortBy, ser2) =>
  match GetInt ser2 with
  | .error e => .error e
  | .ok (desc, ser3) =>
  match GetInt ser3 with
  | .error e => .error e
  | .ok (count, ser4) =>
  match getN GetValue (toUInt32 count) ser4 with
  | .error e => .error e
  | .ok (values, ser5) =>
    .ok ({ q with sortBy := sortBy, sortDirDesc := decide (desc ≠ 0),
                  forcedSortOrder := q.forcedSortOrder ++ values }, ser5)

/-- The body of `case QueryJoinOn`. -/
def deserializeJoinOn (q : Query) (ser1 : List Byte) : Rd Query :=
  match GetInt ser1 with
  | .error e => .error e
  | .ok (op, ser2) =>
  match GetInt ser2 with
  | .error e => .error e
  | .ok (condition, ser3) =>
  match GetString ser3 with
  | .error e => .error e
  | .ok (index, ser4) =>
  match GetString ser4 with
  | .error e => .error e
  | .ok (joinIndex, ser5) =>
    .ok ({ q with joinEntries_ := q.joinEntries_ ++ [⟨op, condition, index, joinIndex⟩] }, ser5)

/-- The bodies of the cases that read one `int` into a member: `QueryDebugLevel`,
`QueryLimit`, `QueryOffset`, `QueryReqTotal`. -/
def deserializeInt (set : Int → Query) (ser1 : List Byte) : Rd Query :=
  match GetInt ser1 with
  | .error e => .error e
  | .ok (v, ser2) => .ok (set v, ser2)

/-- The body of `case QuerySelectFilter`. -/
def deserializeSelectFilter (q : Query) (ser1 : List Byte) : Rd Query :=
  match GetString ser1 with
  | .error e => .error e
  | .ok (sf, ser2) => .ok ({ q with selectFilter_ := q.selectFilter_ ++ [sf] }, ser2)

/-- The `switch (qtype)` of `Query::deserialize` for a tag other than `QueryEnd`, in the
order of its cases.  The `switch` has no `default`: with a tag that has no case nothing is
read and the query is left as it is. -/
def deserializeSwitch (q : Query) (qtype : Int) (ser1 : List Byte) : Rd Query :=
  if qtype = QueryCondition then deserializeCondition q ser1
  else if qtype = QueryAggregation then deserializeAggregation q ser1
  else if qtype = QueryDistinct then deserializeDistinct q ser1
  else if qtype = QuerySortIndex then deserializeSortIndex q ser1
  else if qtype = QueryJoinOn then deserializeJoinOn q ser1
  else if qtype = QueryDebugLevel then deserializeInt (fun v => { q with debugLevel := v }) ser1
  else if qtype = QueryLimit then deserializeInt (fun v => { q with count := toUInt32 v }) ser1
  else if qtype = QueryOffset then deserializeInt (fun v => { q with start := toUInt32 v }) ser1
  else if qtype = QueryReqTotal then deserializeInt (fun v => { q with calcTotal := v }) ser1
  else if qtype = QuerySelectFilter then deserializeSelectFilter q ser1
  else .ok (q, ser1)

/-- The loop `while (!ser.Eof())` of `Query::deserialize`, with a budget of iterations:
a pass reads the tag, returns on `QueryEnd` and otherwise runs the `switch`. -/
def deserializeLoop : Nat → Query → List Byte → Rd Query
  | 0, _, _ => .error .fuel
  | n + 1, q, ser =>
    if ser = [] then .ok (q, ser)
    else
      match GetInt ser with
      | .error e => .error e
      | .ok (qtype, ser1) =>
        if qtype = QueryEnd then .ok (q, ser1)
        else
          match deserializeSwitch q qtype ser1 with
          | .error e => .error e
          | .ok (q1, ser2) => deserializeLoop n q1 ser2

/-- The method `Query::deserialize`: every pass reads at least the four bytes of a tag, so
one pass more than there are bytes is a budget the loop cannot use up. -/
def Query.deserialize (q : Query) (ser : List Byte) : Rd Query :=
  deserializeLoop (ser.length + 1) q ser

/-- The loop `while (!ser.Eof())` of `Query::Deserialize` that reads the children, with a
budget of iterations. -/
def deserializeChildren : Nat → Query → List Byte → Except WireError Query
  | 0, _, _ => .error .fuel
  | n + 1, q, ser =>
    if ser = [] then .ok q
    else
      match GetInt ser with
      | .error e => .error e
      | .ok (joinType, ser1) =>
      match GetString ser1 with
      | .error e => .error e
      | .ok (ns, ser2) =>
      match Query.deserialize { Query.new ns with joinType := joinType } ser2 with
      | .error e => .error e
      | .ok (q1, ser3) =>
        if joinType = Merge then
          deserializeChildren n
            { q with mergeQueries_ := q.mergeQueries_ ++ [{ q1 with debugLevel := q.debugLevel }] }
            ser3
        else
          deserializeChildren n
            { q with joinQueries_ := q.joinQueries_ ++ [{ q1 with debugLevel := q.debugLevel }] }
            ser3

/-- The method `Query::Deserialize` run on the query `q` and the unread bytes `ser`. -/
def Query.Deserialize (q : Query) (ser : List Byte) : Except WireError Query :=
  match GetString ser with
  | .error e => .error e
  | .ok (ns, ser1) =>
    match Query.deserialize { q with _namespace := ns } ser1 with
    | .error e => .error e
    | .ok (q1, ser2) => deserializeChildren (ser2.length + 1) q1 ser2

/-! ## The tokenizer -/

/-- The kind of a token: a name, a number, a punctuation character, or the end of the
input. -/
inductive TokenType
  | TokenEnd
  | TokenName
  | TokenNumber
  | TokenSymbol
  deriving DecidableEq, Repr

/-- A token: its kind and its text. -/
structure token where
  type : TokenType
  text : Str
  deriving DecidableEq, Repr

/-- A blank, a tab, a line feed or a carriage return. -/
def isSpace (c : Byte) : Bool := c = 32 || c = 9 || c = 10 || c = 13

/-- A decimal digit. -/
def isDigit (c : Byte) : Bool := decide (48 ≤ c.val) && decide (c.val ≤ 57)

/-- A letter or an underscore: what a name starts with. -/
def isNameStart (c : Byte) : Bool :=
  (decide (65 ≤ c.val) && decide (c.val ≤ 90)) || (decide (97 ≤ c.val) && decide (c.val ≤ 122)) ||
  c = 95

/-- A letter, a digit or an underscore: what a name goes on with. -/
def isNameChar (c : Byte) : Bool := isNameStart c || isDigit c

/-- Modelled from the spec: `tokenizer::skip_space` (estl/tokenizer.h is not part of the
sources at hand).  The state of a tokenizer is the text that is still unread. -/
def skip_space (cur : Str) : Str := cur.dropWhile isSpace

/-- Modelled from the spec: `tokenizer::end`: nothing is left to read. -/
def tokenizer_end (cur : Str) : Bool := cur.isEmpty

/-- Modelled from the spec: `tokenizer::next_token(flag)`.  Blanks before the token are
skipped; the token is a name, a number, or one punctuation character, and the end token
with an empty text when nothing is left.  With the flag (the default) the blanks after the
token are skipped too; `next_token(false)` is the no-skip-space variant of the spec. -/
def next_token (cur : Str) (skip : Bool := true) : token × Str :=
  match skip_space cur with
  | [] => (⟨.TokenEnd, []⟩, [])
  | c :: rest =>
    if isNameStart c then
      (⟨.TokenName, c :: rest.takeWhile isNameChar⟩,
        if skip then skip_space (rest.dropWhile isNameChar) else rest.dropWhile isNameChar)
    else if isDigit c then
      (⟨.TokenNumber, c :: rest.takeWhile isDigit⟩,
        if skip then skip_space (rest.dropWhile isDigit) else rest.dropWhile isDigit)
    else (⟨.TokenSymbol, [c]⟩, if skip then skip_space rest else rest)

/-- Modelled from the spec: `tokenizer::peek_token`: the next token, nothing consumed. -/
def peek_token (cur : Str) : token := (next_token cur).1

/-! ## The textual parser -/

/-- The error codes of `tools/errors.h` that the parser uses. -/
inductive ErrorCode
  | errParams
  | errParseSQL
  deriving DecidableEq, Repr

/-- Modelled from the spec: an `Error`: its code and its message, the format string with
the text of the token in the place of `%s`. -/
structure Error where
  code : ErrorCode
  what : Str
  deriving DecidableEq, Repr

/-- How a call of the parser ends: it returns an `int`, it throws an `Error`, `std::stoi`
throws `std::out_of_range`, or the model's iteration budget is used up. -/
inductive Outcome
  | ret (code : Int)
  | thrown (e : Error)
  | outOfRange
  | fuel
  deriving DecidableEq, Repr

/-- The value of a string of decimal digits, the digits after `acc`. -/
def digitsValue (acc : Nat) : Str → Nat
  | [] => acc
  | c :: cs => digitsValue (10 * acc + (c.val - 48)) cs

/-- The call `std::stoi(text)` on the text of a number token: the value of the digits, and
nothing (`std::out_of_range` is thrown) when the value does not fit an `int`. -/
def stoi (text : Str) : Option Int :=
  if digitsValue 0 text ≤ 2147483647 then some (digitsValue 0 text : Nat) else none

/-- The WHERE-clause collaborator `QueryWhere::ParseWhere`, which is not part of the
sources at hand: from the unread text and the query being built it gives the text left
and the query with the entries it appended, or the error it throws and the query as it left
it. -/
abbrev WhereParser := Str → Query → Except (Error × Query) (Str × Query)

/-- The loop `while (!parser.end())` over the projection list in `Query::selectParse`, with
a budget of iterations; it gives the last value of `tok`, the unread text and the query. -/
def selectFilterLoop : Nat → token → Str → Query → Option (token × Str × Query)
  | 0, _, _, _ => none
  | n + 1, tok, cur, q =>
    if tokenizer_end cur then some (tok, cur, q)
    else
      let q1 := { q with selectFilter_ := q.selectFilter_ ++ [tok.text] }
      let tok1 := peek_token cur
      if tok1.text ≠ str "," then some (tok1, cur, q1)
      else
        let cur1 := (next_token cur).2
        let r := next_token cur1 false
        selectFilterLoop n r.1 r.2 q1

/-- The loop `while (!parser.end())` over the clauses in `Query::selectParse`, with a budget
of iterations. -/
def selectClauseLoop (ParseWhere : WhereParser) : Nat → Str → Query → Outcome × Query
  | 0, _, q => (.fuel, q)
  | n + 1, cur, q =>
    if tokenizer_end cur then (.ret 0, q)
    else
      let r := next_token cur
      if r.1.text = str "where" then
        match ParseWhere r.2 q with
        | .error (e, q1) => (.thrown e, q1)
        | .ok (cur1, q1) => selectClauseLoop ParseWhere n cur1 q1
      else if r.1.text = str "limit" then
        let r1 := next_token r.2
        if r1.1.type ≠ .TokenNumber then (.ret (-1), q)
        else
          match stoi r1.1.text with
          | none => (.outOfRange, q)
          | some v => selectClauseLoop ParseWhere n r1.2 { q with count := toUInt32 v }
      else if r.1.text = str "offset" then
        let r1 := next_token r.2
        if r1.1.type ≠ .TokenNumber then (.ret (-1), q)
        else
          match stoi r1.1.text with
          | none => (.outOfRange, q)
          | some v => selectClauseLoop ParseWhere n r1.2 { q with start := toUInt32 v }
      else if r.1.text = str "order" then
        let cur1 := (next_token r.2).2
        let r1 := next_token cur1 false
        if r1.1.type ≠ .TokenName then
          (.thrown ⟨.errParseSQL, str "Expected name, but found '" ++ r1.1.text ++ str "' in query"⟩, q)
        else
          let q1 := { q with sortBy := r1.1.text }
          let tok := peek_token r1.2
          if tok.text = str "asc" ∨ tok.text = str "desc" then
            selectClauseLoop ParseWhere n (next_token r1.2).2
              { q1 with sortDirDesc := decide (tok.text = str "desc") }
          else selectClauseLoop ParseWhere n r1.2 q1
      else
        (.thrown ⟨.errParseSQL, str "Unexpected '" ++ r.1.text ++ str "' in query"⟩, q)

/-- The method `Query::selectParse` on the unread text `cur`. -/
def Query.selectParse (ParseWhere : WhereParser) (q : Query) (cur : Str) : Outcome × Query :=
  let r := next_token cur false
  match (if r.1.text ≠ str "*" then selectFilterLoop (r.2.length + 1) r.1 r.2 q
         else some (r.1, r.2, q)) with
  | none => (.fuel, q)
  | some (tok, cur1, q1) =>
    let r1 := next_token cur1
    if r1.1.text ≠ str "from" then
      (.thrown ⟨.errParams, str "Expected 'FROM', but found '" ++ tok.text ++ str "' in query"⟩, q1)
    else
      let r2 := next_token r1.2
      let q2 := { q1 with _namespace := r2.1.text }
      let cur2 := skip_space r2.2
      selectClauseLoop ParseWhere (cur2.length + 1) cur2 q2

/-- The loop `for (;;)` over the namespace names in `Query::describeParse`, with a budget
of iterations. -/
def describeLoop : Nat → token → Str → Query → Outcome × Query
  | 0, _, _, q => (.fuel, q)
  | n + 1, tok, cur, q =>
    let q1 := { q with namespacesNames_ := q.namespacesNames_ ++ [tok.text] }
    let tok1 := peek_token cur
    if tok1.text ≠ str "," then
      let nextTok := (next_token cur false).1
      if nextTok.text.length ≠ 0 then
        (.thrown ⟨.errParseSQL, str "Unexpected '" ++ tok1.text ++ str "' in query"⟩, q1)
      else (.ret 0, { q1 with describe := true })
    else
      let cur1 := (next_token cur).2
      let r := next_token cur1 false
      if tokenizer_end r.2 then
        (.ret 0, { q1 with namespacesNames_ := q1.namespacesNames_ ++ [r.1.text], describe := true })
      else describeLoop n r.1 r.2 q1

/-- The method `Query::describeParse` on the unread text `cur`. -/
def Query.describeParse (q : Query) (cur : Str) : Outcome × Query :=
  let r := next_token cur false
  let cur1 := skip_space r.2
  if r.1.text ≠ str "*" then describeLoop (cur1.length + 1) r.1 cur1 q
  else (.ret 0, { q with describe := true })

/-- The method `Query::Parse(const string &q)`: a tokenizer is made over the text, and the
first token selects the parser. -/
def Query.Parse (ParseWhere : WhereParser) (q : Query) (text : Str) : Outcome × Query :=
  let r := next_token text
  if r.1.text = str "describe" then q.describeParse r.2
  else if r.1.text = str "select" then q.selectParse ParseWhere r.2
  else (.thrown ⟨.errParams, str "Syntax error at or near '" ++ r.1.text ++ str "'"⟩, q)

/-- The text of a name token: a letter or underscore, then letters, digits and
underscores. -/
def isName : Str → Bool
  | [] => false
  | c :: cs => isNameStart c && cs.all isNameChar

/-- The text of a number token: decimal digits, at least one. -/
def isNumber : Str → Bool
  | [] => false
  | c :: cs => isDigit c && cs.all isDigit

/-- The text does not go on with a character of the class `p`. -/
def stopsAt (p : Byte → Bool) : Str → Bool
  | [] => true
  | c :: _ => !p c

/-- The names of a list, each with a comma before it. -/
def commaList : List Str → Str
  | [] => []
  | g :: gs => str "," ++ (g ++ commaList gs)

/-- The names of a projection list, separated by commas. -/
def joinComma : List Str → Str
  | [] => []
  | f :: fs => f ++ commaList fs

/-- The end `order by s desc limit k` of a select statement. -/
def orderTail (s k : Str) : Str := str " order by " ++ (s ++ (str " desc limit " ++ k))

/-- The text `select f1,...,fn from ns where <cond> order by s desc limit k`. -/
def selectText (fs : List Str) (ns cond s k : Str) : Str :=
  str "select " ++ (joinComma fs ++ (str " from " ++ (ns ++ (str " where " ++
    (cond ++ orderTail s k)))))

/-- The text `describe n1,...,nk`. -/
def describeText (names : List Str) : Str := str "describe " ++ joinComma names

/-- Modelled from the spec: a WHERE-clause collaborator for clauses of the one form
`field > number`: it appends the entry `{field, Greater, [number]}`. -/
def sampleParseWhere : WhereParser := fun cur q =>
  let r := next_token cur
  let r1 := next_token r.2
  let r2 := next_token r1.2 false
  if r.1.type = .TokenName ∧ r1.1.text = str ">" ∧ r2.1.type = .TokenNumber then
    .ok (r2.2, { q with entries := q.entries ++
      [{ index := r.1.text, condition := CondGt,
         values := [.scalar (.int (digitsValue 0 r2.1.text))] }] })
  else .error (⟨.errParseSQL, str "Unexpected '" ++ r1.1.text ++ str "' in query"⟩, q)

/-- The example text of the spec. -/
def sampleSelect : Str :=
  str "select id,name from items where price > 100 order by name desc limit 10"

/-! ## The renderer: `Query::Dump` -/

/-- The text of a `std::string` as a C string (`c_str()` read by `%s`, or `string(buf)`):
the bytes before the first NUL byte. -/
def c_str (s : Str) : Str := s.takeWhile (fun c => c ≠ 0)

/-- The call `std::to_string(n)` for an `unsigned`: the decimal digits of `n`. -/
def to_string (n : Nat) : Str := (Nat.toDigits 10 n).map (fun c => Fin.ofNat c.toNat)

/-- An item of a `printf` format: literal text, or a `%s` with its argument. -/
inductive FmtItem
  | lit (text : Str)
  | s (arg : Str)

/-- What a format prints: the literal text as it is, each `%s` argument as a C string. -/
def format : List FmtItem → Str
  | [] => []
  | .lit text :: rest => text ++ format rest
  | .s arg :: rest => c_str arg ++ format rest

/-- The call `snprintf(buf, bufSize, ...)` followed by `string(buf)`: at most `bufSize - 1`
bytes of the formatted text are written before the terminating NUL, and the string is made
of the bytes of `buf` before the first NUL. -/
def snprintf (bufSize : Nat) (fmt : List FmtItem) : Str := c_str ((format fmt).take (bufSize - 1))

/-- The renderer `QueryWhere::toString` of the filter-tree collaborator, which is not part
of the sources at hand: the text of the WHERE clause of a query. -/
abbrev WhereRenderer := Query → Str

/-- The loop over `aggregations_` in `Query::Dump`; `first` says that the element is
`*aggregations_.begin()`. -/
def dumpAggregations : Bool → List AggregateEntry → Str
  | _, [] => []
  | first, a :: rest =>
    (if first then [] else str ",") ++
    (if a.type_ = AggAvg then str "AVG(" else if a.type_ = AggSum then str "SUM("
     else str "<?> (") ++
    (a.index_ ++ str ")") ++ dumpAggregations false rest

/-- The loop over `selectFilter_` in `Query::Dump`; `first` says that the element is
`*selectFilter_.begin()`. -/
def dumpSelectFilter : Bool → List Str → Str
  | _, [] => []
  | first, f :: rest => (if first then [] else str ",") ++ f ++ dumpSelectFilter false rest

/-- The loop over the join predicates of one joined query in `Query::DumpJoined`;
`condNames` is the table of the condition symbols. -/
def dumpJoinEntries (condNames : Int → Str) (parentNs childNs : Str) :
    Bool → List QueryJoinEntry → Str
  | _, [] => []
  | first, e :: rest =>
    (if first then [] else str "AND ") ++
    (childNs ++ str "." ++ e.joinIndex_ ++ str " " ++ condNames e.condition_ ++ str " " ++
      parentNs ++ str "." ++ e.index_ ++ str " ") ++
    dumpJoinEntries condNames parentNs childNs false rest

/-- The loop over `joinQueries_` in `Query::DumpJoined`. -/
def dumpJoinedLoop (toString : WhereRenderer) (condNames : Int → Str) (parentNs : Str) :
    List Query → Str
  | [] => []
  | je :: rest =>
    (if je.joinType = InnerJoin then str "INNER JOIN "
     else if je.joinType = OrInnerJoin then str "OR INNER JOIN "
     else if je.joinType = LeftJoin then str "LEFT JOIN "
     else []) ++
    (je._namespace ++ str " ON ") ++
    dumpJoinEntries condNames parentNs je._namespace true je.joinEntries_ ++
    toString je ++
    dumpJoinedLoop toString condNames parentNs rest

/-- The method `Query::DumpJoined`. -/
def Query.DumpJoined (toString : WhereRenderer) (condNames : Int → Str) (q : Query) : Str :=
  dumpJoinedLoop toString condNames q._namespace q.joinQueries_

/-- The loop of the method `Query::DumpMerged`. -/
def dumpMergedLoop (toString : WhereRenderer) : List Query → Str
  | [] => []
  | me :: rest =>
    (if me.joinType = Merge then str "Merge " else str "Wrong Merge Type") ++
    toString me ++ dumpMergedLoop toString rest

/-- The method `Query::DumpMerged`. -/
def Query.DumpMerged (toString : WhereRenderer) (q : Query) : Str :=
  dumpMergedLoop toString q.mergeQueries_

/-- The string `lim` of `Query::Dump`. -/
def dumpLim (q : Query) : Str :=
  (if q.start ≠ 0 then str "OFFSET " ++ to_string q.start ++ str " " else []) ++
  (if q.count ≠ UINT_MAX then str "LIMIT " ++ to_string q.count else [])

/-- The string `filt` of `Query::Dump`. -/
def dumpFilt (q : Query) : Str :=
  if q.aggregations_.length ≠ 0 then dumpAggregations true q.aggregations_
  else if q.selectFilter_.length ≠ 0 then dumpSelectFilter true q.selectFilter_
  else str "*"

/-- The method `Query::Dump`, with the format `"SELECT %s FROM %s %s%s%s%s%s%s%s"` and a
buffer of 4096 bytes. -/
def Query.Dump (toString : WhereRenderer) (condNames : Int → Str) (q : Query) : Str :=
  snprintf 4096
    [.lit (str "SELECT "), .s (dumpFilt q), .lit (str " FROM "), .s q._namespace,
     .lit (str " "), .s (toString q), .s (q.DumpJoined toString condNames),
     .s (q.DumpMerged toString),
     .s (if q.sortBy.length ≠ 0 then str "ORDER BY " ++ q.sortBy else []),
     .s (if q.sortDirDesc then str " DESC " else []),
     .s (dumpLim q),
     .s (if q.calcTotal ≠ 0 then str " REQTOTAL " else [])]

/-! ## The rendering as the spec describes it -/

/-- The expression of one aggregation: `SUM(f)`, `AVG(f)`, and `<?> (f)` for a kind that
is neither. -/
def aggExpr (a : AggregateEntry) : Str :=
  (if a.type_ = AggSum then str "SUM(" else if a.type_ = AggAvg then str "AVG("
   else str "<?> (") ++ a.index_ ++ str ")"

/-- The projection of the rendering: the comma-joined aggregation expressions when there
are aggregations, otherwise the comma-joined select fields when there are any, otherwise
`*`. -/
def projection (q : Query) : Str :=
  if q.aggregations_ ≠ [] then joinComma (q.aggregations_.map aggExpr)
  else if q.selectFilter_ ≠ [] then joinComma q.selectFilter_
  else str "*"

/-- The rendering up to the merges: `SELECT <projection> FROM <namespace> <where><joins>
<merges>`, each part as `%s` prints it. -/
def dumpHead (toString : WhereRenderer) (condNames : Int → Str) (q : Query) : Str :=
  str "SELECT " ++ c_str (projection q) ++ str " FROM " ++ c_str q._namespace ++ str " " ++
  c_str (toString q) ++ c_str (q.DumpJoined toString condNames) ++ c_str (q.DumpMerged toString)

/-- The full rendering `SELECT <projection> FROM <namespace> <where><joins><merges><order>
<direction><limit><total>`. -/
def fullRendering (toString : WhereRenderer) (condNames : Int → Str) (q : Query) : Str :=
  dumpHead toString condNames q ++
  (if q.sortBy ≠ [] then str "ORDER BY " ++ c_str q.sortBy else []) ++
  (if q.sortDirDesc then str " DESC " else []) ++
  c_str (dumpLim q) ++
  (if q.calcTotal ≠ 0 then str " REQTOTAL " else [])

/-- A sample renderer of the WHERE clause: one `WHERE` for a query with entries. -/
def sampleToString : WhereRenderer := fun q => if q.entries.length ≠ 0 then str "WHERE ... " else []

/-- A sample table of condition symbols. -/
def sampleCondNames : Int → Str := fun c => if c = CondEq then str "=" else str "?"

/-- A query with a sort field, an ascending direction, an offset and a limit. -/
def orderAscQuery : Query := { Query.new (str "items") 5 7 with sortBy := str "name" }

/-- The same query with a descending direction. -/
def orderDescQuery : Query :=
  { Query.new (str "items") 5 7 with sortBy := str "name", sortDirDesc := true }

/-- A query with a descending direction and no sort field. -/
def descOnlyQuery : Query := { Query.new (str "items") 0 7 with sortDirDesc := true }

/-- A query with a sort field, a descending direction, no offset and the default limit. -/
def descNoLimitQuery : Query :=
  { Query.new (str "items") with sortBy := str "name", sortDirDesc := true }

/-- A query whose namespace is 5000 bytes long. -/
def longQuery : Query := Query.new (List.replicate 5000 97)

/-- The text holds no NUL byte. -/
def noNul (s : Str) : Prop := ∀ c ∈ s, c ≠ 0

/-- An `int`: a value a 32 bit two's complement integer can hold. -/
def isInt32 (v : Int) : Prop := -2147483648 ≤ v ∧ v < 2147483648

instance (v : Int) : Decidable (isInt32 v) := by unfold isInt32; infer_instance

/-- A scalar the codec can carry. -/
def Scalar.ok : Scalar → Prop
  | .int v => isInt32 v
  | .double bits => bits < 18446744073709551616
  | .string s => s.length < 2147483648
  | .bool _ => True

/-- A typed value the codec can carry. -/
def KeyValue.ok : KeyValue → Prop
  | .scalar v => v.ok
  | .composite vs => vs.length < 2147483648 ∧ ∀ v ∈ vs, v.ok

/-- A filter entry the wire format carries unchanged: its numbers and sizes fit an `int`,
and a DISTINCT entry holds what a default-constructed entry holds (the record of a
DISTINCT entry has the field name only). -/
def QueryEntry.ok (qe : QueryEntry) : Prop :=
  qe.index.length < 2147483648 ∧
  if qe.distinct then qe.op = OpAnd ∧ qe.condition = CondAny ∧ qe.values = []
  else isInt32 qe.op ∧ isInt32 qe.condition ∧ qe.values.length < 2147483648 ∧
       ∀ v ∈ qe.values, v.ok

/-- An aggregation whose parts fit the wire format. -/
def AggregateEntry.ok (a : AggregateEntry) : Prop :=
  a.index_.length < 2147483648 ∧ isInt32 a.type_

/-- A join predicate whose parts fit the wire format. -/
def QueryJoinEntry.ok (e : QueryJoinEntry) : Prop :=
  isInt32 e.op_ ∧ isInt32 e.condition_ ∧ e.index_.length < 2147483648 ∧
  e.joinIndex_.length < 2147483648

/-- The members of a query that its records carry fit the wire format: every `int` is a
32 bit value, every size fits an `int`, and the `unsigned` members are below `2^32`. -/
def Query.fieldsOk (q : Query) : Prop :=
  q._namespace.length < 2147483648 ∧ (∀ qe ∈ q.entries, qe.ok) ∧
  (∀ a ∈ q.aggregations_, a.ok) ∧ q.sortBy.length < 2147483648 ∧
  q.forcedSortOrder.length < 2147483648 ∧ (∀ v ∈ q.forcedSortOrder, v.ok) ∧
  (∀ e ∈ q.joinEntries_, e.ok) ∧ isInt32 q.debugLevel ∧ q.count < 4294967296 ∧
  q.start < 4294967296 ∧ isInt32 q.calcTotal ∧ (∀ sf ∈ q.selectFilter_, sf.length < 2147483648)

/-- The sort direction and the forced sort order are only set together with `sortBy`
(they travel in the `QuerySortIndex` record, which is written for a non-empty `sortBy`). -/
def Query.sortOk (q : Query) : Prop :=
  q.sortBy = [] → q.sortDirDesc = false ∧ q.forcedSortOrder = []

/-- What reading the records of `q` into a query constructed with the join kind
`joinType` gives: the members the records carry are those of `q`. -/
def Query.decoded (q : Query) (joinType : Int) : Query :=
  { q with joinQueries_ := [], mergeQueries_ := [], joinType := joinType, describe := false,
           namespacesNames_ := [] }

/-- The block of one child in the output of `Serialize`: its join kind, then its namespace,
records and end tag. -/
def putBlock (c : Query) : List Byte := PutInt c.joinType ++ serializeFields c Normal

mutual
/-- A query followed by all the queries below it, in the order in which `Serialize`
writes them. -/
def Query.flat : Query → List Query
  | q@(.mk jq mq ..) => q :: (flatList jq ++ flatList mq)
termination_by structural q => q
/-- The queries of a list of children, each followed by the queries below it. -/
def flatList : List Query → List Query
  | [] => []
  | q :: qs => q.flat ++ flatList qs
termination_by structural l => l
end

/-- What `Deserialize` makes of the block of the child `c` under a root with the debug
level `debugLevel`. -/
def Query.adopted (debugLevel : Int) (c : Query) : Query :=
  { c.decoded c.joinType with debugLevel := debugLevel }

/-- The conditions under which the block of a query is read back as written. -/
def Query.blockOk (c : Query) : Prop :=
  isInt32 c.joinType ∧ c.fieldsOk ∧ c.sortOk ∧ c.count ≠ 0

/-- A child that reads back as it is: it has no children, it carries the debug level of
its parent, and it is not a describe query. -/
def Query.childOk (debugLevel : Int) (c : Query) : Prop :=
  c.joinQueries_ = [] ∧ c.mergeQueries_ = [] ∧ c.debugLevel = debugLevel ∧
  c.describe = false ∧ c.namespacesNames_ = []

instance (v : Scalar) : Decidable v.ok := by
  cases v <;> (unfold Scalar.ok; infer_instance)

instance (v : KeyValue) : Decidable v.ok := by
  cases v <;> (unfold KeyValue.ok; infer_instance)

instance (qe : QueryEntry) : Decidable qe.ok := by unfold QueryEntry.ok; infer_instance

instance (a : AggregateEntry) : Decidable a.ok := by unfold AggregateEntry.ok; infer_instance

instance (e : QueryJoinEntry) : Decidable e.ok := by unfold QueryJoinEntry.ok; infer_instance

instance (q : Query) : Decidable q.fieldsOk := by unfold Query.fieldsOk; infer_instance

instance (q : Query) : Decidable q.sortOk := by unfold Query.sortOk; infer_instance

instance (q : Query) : Decidable q.blockOk := by unfold Query.blockOk; infer_instance

instance (l : List Query) : Decidable (l = []) :=
  match l with
  | [] => isTrue rfl
  | _ :: _ => isFalse (fun h => List.noConfusion h)

instance (d : Int) (q : Query) : Decidable (q.childOk d) := by
  unfold Query.childOk; infer_instance

/-- The members of a query that no record changes. -/
def Query.sameFrame (q q1 : Query) : Prop :=
  q1.joinType = q.joinType ∧ q1.joinQueries_ = q.joinQueries_ ∧
  q1.mergeQueries_ = q.mergeQueries_ ∧ q1.describe = q.describe ∧
  q1.namespacesNames_ = q.namespacesNames_

/-! ## The layout of a message -/

/-- One tagged record: the tag and the bytes of the payload. -/
abbrev Record := Int × List Byte

/-- The bytes of a record: the tag as an `int`, then the payload. -/
def putRecord (r : Record) : List Byte := PutInt r.1 ++ r.2

/-- The record of a filter entry, with the payload of the tag table: the field name alone
for `Distinct`, and name, combinator, condition, value count and values for `Condition`. -/
def entryRecord (qe : QueryEntry) : Record :=
  if qe.distinct then (QueryDistinct, PutString qe.index)
  else (QueryCondition, PutString qe.index ++ PutInt qe.op ++ PutInt qe.condition ++
          PutInt qe.values.length ++ putAll PutValue qe.values)

/-- The tagged field records of a query in the default mode, in the order in which they are
written: filter entries, aggregations, the sort record, join predicates, the debug level,
limit, offset, the total-count mode and the projected fields. -/
def wireRecords (q : Query) : List Record :=
  q.entries.map entryRecord ++
  q.aggregations_.map (fun a => (QueryAggregation, PutString a.index_ ++ PutInt a.type_)) ++
  (if q.sortBy ≠ [] then
     [(QuerySortIndex, PutString q.sortBy ++ PutInt (if q.sortDirDesc then 1 else 0) ++
        PutInt q.forcedSortOrder.length ++ putAll PutValue q.forcedSortOrder)]
   else []) ++
  q.joinEntries_.map (fun e => (QueryJoinOn, PutInt e.op_ ++ PutInt e.condition_ ++
        PutString e.index_ ++ PutString e.joinIndex_)) ++
  [(QueryDebugLevel, PutInt q.debugLevel)] ++
  (if q.count ≠ 0 then [(QueryLimit, PutInt q.count)] else []) ++
  (if q.start ≠ 0 then [(QueryOffset, PutInt q.start)] else []) ++
  (if q.calcTotal ≠ 0 then [(QueryReqTotal, PutInt q.calcTotal)] else []) ++
  q.selectFilter_.map (fun sf => (QuerySelectFilter, PutString sf))

/-- The tags of the table that start a record with a payload (all but `End`). -/
def recordTags : List Int :=
  [QueryCondition, QueryDistinct, QueryAggregation, QuerySortIndex, QueryJoinOn,
   QueryDebugLevel, QueryLimit, QueryOffset, QueryReqTotal, QuerySelectFilter]

/-- The child blocks of a byte stream, read one after the other as the spec describes the
decoding of the children: a join kind, then a namespace and a field list read into a fresh
query of that join kind, which then gets the debug level `debugLevel` of the root. -/
def readBlocks : Nat → Int → List Byte → Except WireError (List (Int × Query))
  | 0, _, _ => .error .fuel
  | n + 1, debugLevel, ser =>
    if ser = [] then .ok []
    else
      match GetInt ser with
      | .error e => .error e
      | .ok (joinType, ser1) =>
      match GetString ser1 with
      | .error e => .error e
      | .ok (ns, ser2) =>
      match Query.deserialize { Query.new ns with joinType := joinType } ser2 with
      | .error e => .error e
      | .ok (q1, ser3) =>
        match readBlocks n debugLevel ser3 with
        | .error e => .error e
        | .ok blocks => .ok ((joinType, { q1 with debugLevel := debugLevel }) :: blocks)

/-! ## Sample queries and streams -/

/-- A joined child: `INNER JOIN prices ON prices.item_id = items.id`, with a filter. -/
def sampleJoin : Query :=
  { Query.new (str "prices") with
    joinType := InnerJoin
    joinEntries_ := [⟨OpAnd, CondEq, str "id", str "item_id"⟩]
    entries := [{ index := str "price", condition := CondGt,
                  values := [.scalar (.int 100)] }] }

/-- A merged child. -/
def sampleMerge : Query :=
  { Query.new (str "archive") with
    joinType := Merge
    entries := [{ index := str "kind", distinct := true }] }

/-- A root query with one joined and one merged child. -/
def sampleQuery : Query :=
  { Query.new (str "items") 20 10 ModeAccurateTotal with
    joinQueries_ := [sampleJoin]
    mergeQueries_ := [sampleMerge]
    entries := [{ index := str "year", condition := CondRange,
                  values := [.scalar (.int 2000), .scalar (.int 2010)] },
                { index := str "tags", op := OpOr, condition := CondSet,
                  values := [.composite [.string (str "a"), .bool true, .double 0]] }]
    aggregations_ := [⟨str "price", AggSum⟩]
    sortBy := str "name"
    sortDirDesc := true
    forcedSortOrder := [.scalar (.string (str "z"))]
    selectFilter_ := [str "id", str "name"] }

/-- A root whose joined child has a debug level of its own. -/
def debugQuery : Query :=
  { Query.new (str "items") with
    joinQueries_ := [{ Query.new (str "prices") with joinType := InnerJoin, debugLevel := 1 }] }

/-- A root that asks for a descending order without naming a sort field. -/
def descQuery : Query := { Query.new (str "items") with sortDirDesc := true }

/-- A root whose joined child has a joined child of its own. -/
def nestedQuery : Query :=
  { Query.new (str "a") with
    joinQueries_ := [{ Query.new (str "b") with
      joinType := InnerJoin
      joinQueries_ := [{ Query.new (str "c") with joinType := LeftJoin }] }] }

/-- A stream with the tag 99, which is not in the tag table, before a `Limit` record. -/
def unknownTagStream : List Byte :=
  PutString (str "items") ++ PutInt 99 ++ PutInt QueryLimit ++ PutInt 5 ++ PutInt QueryEnd

/-- A stream with a `Range` condition that declares and carries one value. -/
def rangeOneStream : List Byte :=
  PutString (str "items") ++
  (PutInt QueryCondition ++ PutString (str "price") ++ PutInt OpAnd ++ PutInt CondRange ++
    PutInt 1 ++ PutValue (.scalar (.int 5))) ++
  PutInt QueryEnd

/-- A stream whose child block has the join kind 99. -/
def unknownJoinStream : List Byte :=
  PutString (str "items") ++ PutInt QueryEnd ++
  PutInt 99 ++ PutString (str "x") ++ PutInt QueryEnd

/-- A stream with a merged child block before a joined one. -/
def twoChildrenStream : List Byte :=
  PutString (str "items") ++ PutInt QueryEnd ++
  PutInt Merge ++ PutString (str "m") ++ PutInt QueryDebugLevel ++ PutInt 3 ++ PutInt QueryEnd ++
  PutInt InnerJoin ++ PutString (str "j") ++ PutInt QueryEnd

/-- What `Deserialize` makes of `twoChildrenStream`. -/
def twoChildrenQuery : Query :=
  { Query.new (str "items") with
    joinQueries_ := [{ Query.new (str "j") with joinType := InnerJoin }]
    mergeQueries_ := [{ Query.new (str "m") with joinType := Merge }] }

/-! ## Theorems: the serializer primitives -/

theorem length_putLE (k v : Nat) : (putLE k v).length = k := by
  induction k generalizing v with
  | zero => rfl
  | succ k ih => simp [putLE, ih]

theorem getLE_putLE (k v : Nat) : getLE (putLE k v) = v % 256 ^ k := by
  induction k generalizing v with
  | zero => simp [putLE, getLE, Nat.mod_one]
  | succ k ih =>
    have h1 : (Fin.ofNat (v % 256) : Byte).val = v % 256 := by
      simp [Fin.ofNat]
    simp only [putLE, getLE, ih, h1]
    rw [pow_succ, mul_comm (256 ^ k) 256, Nat.mod_mul]

theorem getLE_lt (bs : List Byte) : getLE bs < 256 ^ bs.length := by
  induction bs with
  | nil => simp [getLE]
  | cons b bs ih =>
    have := b.isLt
    simp only [getLE, List.length_cons, pow_succ]
    omega

theorem take_drop_append (xs rest : List Byte) :
    (xs ++ rest).take xs.length = xs ∧ (xs ++ rest).drop xs.length = rest := by
  simp

theorem length_PutInt (v : Int) : (PutInt v).length = 4 := length_putLE 4 _

theorem toUInt32_lt (v : Int) : toUInt32 v < 4294967296 := by
  unfold toUInt32; omega

theorem toInt32_toUInt32 (v : Int) (h : isInt32 v) : toInt32 (toUInt32 v) = v := by
  unfold isInt32 at h
  unfold toInt32 toUInt32
  split <;> omega

theorem toUInt32_toInt32 (n : Nat) (h : n < 4294967296) : toUInt32 (toInt32 n) = n := by
  unfold toInt32 toUInt32
  split <;> omega

theorem toUInt32_natCast (n : Nat) (h : n < 4294967296) : toUInt32 (n : Int) = n := by
  unfold toUInt32; omega

theorem GetInt_PutInt_raw (v : Int) (rest : List Byte) :
    GetInt (PutInt v ++ rest) = .ok (toInt32 (toUInt32 v), rest) := by
  have hl := length_PutInt v
  have h12 := take_drop_append (PutInt v) rest
  rw [hl] at h12
  unfold GetInt
  rw [if_pos (by simp [hl]), h12.1, h12.2]
  unfold PutInt
  rw [getLE_putLE, Nat.mod_eq_of_lt (by have := toUInt32_lt v; omega)]

theorem GetInt_PutInt (v : Int) (rest : List Byte) (h : isInt32 v) :
    GetInt (PutInt v ++ rest) = .ok (v, rest) := by
  rw [GetInt_PutInt_raw, toInt32_toUInt32 v h]

theorem GetInt_length {ser ser1 : List Byte} {v : Int} (h : GetInt ser = .ok (v, ser1)) :
    ser1.length + 4 = ser.length := by
  unfold GetInt at h
  split at h
  · simp only [Except.ok.injEq, Prod.mk.injEq] at h
    rw [← h.2, List.length_drop]; omega
  · cases h

theorem GetString_PutString (s : Str) (rest : List Byte) (h : s.length < 2147483648) :
    GetString (PutString s ++ rest) = .ok (s, rest) := by
  unfold GetString PutString
  rw [List.append_assoc, GetInt_PutInt _ _ ⟨by omega, by omega⟩]
  simp

theorem GetString_length {ser ser1 : List Byte} {v : Str} (h : GetString ser = .ok (v, ser1)) :
    ser1.length + 4 ≤ ser.length := by
  unfold GetString at h
  split at h
  · cases h
  · rename_i l s1 hg
    have := GetInt_length hg
    split at h
    · simp only [Except.ok.injEq, Prod.mk.injEq] at h
      rw [← h.2, List.length_drop]; omega
    · cases h

theorem getN_putAll {α : Type} (put : α → List Byte) (get : List Byte → Rd α) (P : α → Prop)
    (h : ∀ v rest, P v → get (put v ++ rest) = .ok (v, rest)) (vs : List α) (rest : List Byte)
    (hvs : ∀ v ∈ vs, P v) : getN get vs.length (putAll put vs ++ rest) = .ok (vs, rest) := by
  induction vs with
  | nil => rfl
  | cons v vs ih =>
    simp only [List.length_cons, putAll, getN, List.append_assoc]
    rw [h v _ (hvs v (List.mem_cons_self _ _))]
    simp only
    rw [ih (fun w hw => hvs w (List.mem_cons_of_mem _ hw))]

theorem getN_length {α : Type} (get : List Byte → Rd α)
    (h : ∀ ser v ser1, get ser = .ok (v, ser1) → ser1.length ≤ ser.length) (n : Nat)
    (ser : List Byte) (vs : List α) (ser1 : List Byte) (hg : getN get n ser = .ok (vs, ser1)) :
    ser1.length ≤ ser.length := by
  induction n generalizing ser vs with
  | zero => simp only [getN, Except.ok.injEq, Prod.mk.injEq] at hg; rw [hg.2]
  | succ n ih =>
    simp only [getN] at hg
    split at hg
    · cases hg
    · rename_i v s1 hv
      split at hg
      · cases hg
      · rename_i vs1 s2 hvs
        simp only [Except.ok.injEq, Prod.mk.injEq] at hg
        obtain ⟨_, rfl⟩ := hg
        have := h _ _ _ hv
        have := ih _ _ hvs
        omega

theorem getScalar_putScalar (v : Scalar) (rest : List Byte) (h : v.ok) :
    getScalar (putScalar v ++ rest) = .ok (v, rest) := by
  cases v with
  | int v =>
    simp only [putScalar, getScalar, List.append_assoc]
    rw [GetInt_PutInt _ _ (by decide)]
    simp only [if_true]
    rw [GetInt_PutInt _ _ h]
  | double bits =>
    simp only [putScalar, getScalar, List.append_assoc]
    rw [GetInt_PutInt _ _ (by decide)]
    have hl := length_putLE 8 bits
    have h12 := take_drop_append (putLE 8 bits) rest
    rw [hl] at h12
    simp only [Scalar.ok] at h
    simp [h12.1, h12.2, hl, getLE_putLE, Nat.mod_eq_of_lt h]
  | string s =>
    simp only [putScalar, getScalar, List.append_assoc]
    rw [GetInt_PutInt _ _ (by decide)]
    simp only [Scalar.ok] at h
    simp [GetString_PutString s rest h]
  | bool b =>
    simp only [putScalar, getScalar, List.append_assoc]
    rw [GetInt_PutInt _ _ (by decide)]
    simp
    rw [GetInt_PutInt _ _ (by cases b <;> decide)]
    cases b <;> simp

theorem getScalar_length {ser ser1 : List Byte} {v : Scalar}
    (h : getScalar ser = .ok (v, ser1)) : ser1.length + 4 ≤ ser.length := by
  unfold getScalar at h
  split at h
  · cases h
  · rename_i t s1 ht
    have := GetInt_length ht
    split at h
    · split at h
      · cases h
      · rename_i _ _ hv
        have := GetInt_length hv
        simp only [Except.ok.injEq, Prod.mk.injEq] at h
        rw [← h.2]; omega
    · split at h
      · split at h
        · simp only [Except.ok.injEq, Prod.mk.injEq] at h
          rw [← h.2, List.length_drop]; omega
        · cases h
      · split at h
        · split at h
          · cases h
          · rename_i _ _ hv
            have := GetString_length hv
            simp only [Except.ok.injEq, Prod.mk.injEq] at h
            rw [← h.2]; omega
        · split at h
          · split at h
            · cases h
            · rename_i _ _ hv
              have := GetInt_length hv
              simp only [Except.ok.injEq, Prod.mk.injEq] at h
              rw [← h.2]; omega
          · cases h

theorem GetValue_PutValue (v : KeyValue) (rest : List Byte) (h : v.ok) :
    GetValue (PutValue v ++ rest) = .ok (v, rest) := by
  cases v with
  | scalar v =>
    simp only [KeyValue.ok] at h
    have hs := getScalar_putScalar v rest h
    unfold GetValue
    simp only [PutValue]
    cases v <;>
      (simp only [putScalar, List.append_assoc] at hs ⊢
       rw [GetInt_PutInt _ _ (by decide)]
       simp [hs])
  | composite vs =>
    simp only [KeyValue.ok] at h
    simp only [PutValue, GetValue, List.append_assoc]
    rw [GetInt_PutInt _ _ (by decide)]
    simp only [if_true]
    rw [GetInt_PutInt _ _ ⟨by omega, by omega⟩]
    simp only
    rw [toUInt32_natCast _ (by omega), getN_putAll putScalar getScalar Scalar.ok getScalar_putScalar vs rest h.2]

theorem GetValue_length {ser ser1 : List Byte} {v : KeyValue}
    (h : GetValue ser = .ok (v, ser1)) : ser1.length + 4 ≤ ser.length := by
  unfold GetValue at h
  split at h
  · cases h
  · rename_i t s1 ht
    have := GetInt_length ht
    split at h
    · split at h
      · cases h
      · rename_i _ _ hv
        have := GetInt_length hv
        split at h
        · cases h
        · rename_i _ _ hn
          have := getN_length getScalar
            (fun _ _ _ hh => by have := getScalar_length hh; omega) _ _ _ _ hn
          simp only [Except.ok.injEq, Prod.mk.injEq] at h
          rw [← h.2]; omega
    · split at h
      · cases h
      · rename_i _ _ hv
        have := getScalar_length hv
        simp only [Except.ok.injEq, Prod.mk.injEq] at h
        rw [← h.2]; omega


/-! ## Theorems: the loop of `deserialize` -/

theorem getN_GetValue_length {n : Nat} {ser ser1 : List Byte} {vs : List KeyValue}
    (h : getN GetValue n ser = .ok (vs, ser1)) : ser1.length ≤ ser.length :=
  getN_length GetValue (fun _ _ _ hh => by have := GetValue_length hh; omega) _ _ _ _ h

theorem deserializeCondition_length {q q1 : Query} {ser ser1 : List Byte}
    (h : deserializeCondition q ser = .ok (q1, ser1)) : ser1.length ≤ ser.length := by
  unfold deserializeCondition at h
  repeat' split at h
  all_goals try contradiction
  rename_i h1 _ _ _ h2 _ _ _ h3 _ _ _ h4 _ _ _ h5
  have := GetString_length h1
  have := GetInt_length h2
  have := GetInt_length h3
  have := GetInt_length h4
  have := getN_GetValue_length h5
  simp only [Except.ok.injEq, Prod.mk.injEq] at h
  obtain ⟨_, rfl⟩ := h
  omega

theorem deserializeAggregation_length {q q1 : Query} {ser ser1 : List Byte}
    (h : deserializeAggregation q ser = .ok (q1, ser1)) : ser1.length ≤ ser.length := by
  unfold deserializeAggregation at h
  repeat' split at h
  all_goals try contradiction
  rename_i h1 _ _ _ h2
  have := GetString_length h1
  have := GetInt_length h2
  simp only [Except.ok.injEq, Prod.mk.injEq] at h
  obtain ⟨_, rfl⟩ := h
  omega

theorem deserializeDistinct_length {q q1 : Query} {ser ser1 : List Byte}
    (h : deserializeDistinct q ser = .ok (q1, ser1)) : ser1.length ≤ ser.length := by
  unfold deserializeDistinct at h
  repeat' split at h
  all_goals try contradiction
  rename_i h1
  have := GetString_length h1
  simp only [Except.ok.injEq, Prod.mk.injEq] at h
  obtain ⟨_, rfl⟩ := h
  omega

theorem deserializeSortIndex_length {q q1 : Query} {ser ser1 : List Byte}
    (h : deserializeSortIndex q ser = .ok (q1, ser1)) : ser1.length ≤ ser.length := by
  unfold deserializeSortIndex at h
  repeat' split at h
  all_goals try contradiction
  rename_i h1 _ _ _ h2 _ _ _ h3 _ _ _ h4
  have := GetString_length h1
  have := GetInt_length h2
  have := GetInt_length h3
  have := getN_GetValue_length h4
  simp only [Except.ok.injEq, Prod.mk.injEq] at h
  obtain ⟨_, rfl⟩ := h
  omega

theorem deserializeJoinOn_length {q q1 : Query} {ser ser1 : List Byte}
    (h : deserializeJoinOn q ser = .ok (q1, ser1)) : ser1.length ≤ ser.length := by
  unfold deserializeJoinOn at h
  repeat' split at h
  all_goals try contradiction
  rename_i h1 _ _ _ h2 _ _ _ h3 _ _ _ h4
  have := GetInt_length h1
  have := GetInt_length h2
  have := GetString_length h3
  have := GetString_length h4
  simp only [Except.ok.injEq, Prod.mk.injEq] at h
  obtain ⟨_, rfl⟩ := h
  omega

theorem deserializeInt_length {set : Int → Query} {q1 : Query} {ser ser1 : List Byte}
    (h : deserializeInt set ser = .ok (q1, ser1)) : ser1.length ≤ ser.length := by
  unfold deserializeInt at h
  repeat' split at h
  all_goals try contradiction
  rename_i h1
  have := GetInt_length h1
  simp only [Except.ok.injEq, Prod.mk.injEq] at h
  obtain ⟨_, rfl⟩ := h
  omega

theorem deserializeSelectFilter_length {q q1 : Query} {ser ser1 : List Byte}
    (h : deserializeSelectFilter q ser = .ok (q1, ser1)) : ser1.length ≤ ser.length := by
  unfold deserializeSelectFilter at h
  repeat' split at h
  all_goals try contradiction
  rename_i h1
  have := GetString_length h1
  simp only [Except.ok.injEq, Prod.mk.injEq] at h
  obtain ⟨_, rfl⟩ := h
  omega

theorem deserializeSwitch_length {q q1 : Query} {t : Int} {ser ser1 : List Byte}
    (h : deserializeSwitch q t ser = .ok (q1, ser1)) : ser1.length ≤ ser.length := by
  unfold deserializeSwitch at h
  repeat' split at h
  · exact deserializeCondition_length h
  · exact deserializeAggregation_length h
  · exact deserializeDistinct_length h
  · exact deserializeSortIndex_length h
  · exact deserializeJoinOn_length h
  · exact deserializeInt_length h
  · exact deserializeInt_length h
  · exact deserializeInt_length h
  · exact deserializeInt_length h
  · exact deserializeSelectFilter_length h
  · simp only [Except.ok.injEq, Prod.mk.injEq] at h
    rw [h.2]

/-- Any two budgets above the number of unread bytes give `deserializeLoop` the same
result: the budget is never what stops the loop. -/
theorem deserializeLoop_fuel (n m : Nat) (q : Query) (ser : List Byte)
    (hn : ser.length < n) (hm : ser.length < m) :
    deserializeLoop n q ser = deserializeLoop m q ser := by
  induction n generalizing m q ser with
  | zero => omega
  | succ n ih =>
    cases m with
    | zero => omega
    | succ m =>
      simp only [deserializeLoop]
      split
      · rfl
      · split
        · rfl
        · rename_i t s1 ht
          have := GetInt_length ht
          split
          · rfl
          · split
            · rfl
            · rename_i q1 s2 hs
              have := deserializeSwitch_length hs
              exact ih m q1 s2 (by omega) (by omega)

theorem deserialize_nil (q : Query) : q.deserialize [] = .ok (q, []) := by
  simp [Query.deserialize, deserializeLoop]

theorem deserialize_step (q q1 : Query) (t : Int) (ser s1 s2 : List Byte)
    (ht : GetInt ser = .ok (t, s1)) (hne : t ≠ QueryEnd)
    (hs : deserializeSwitch q t s1 = .ok (q1, s2)) :
    q.deserialize ser = q1.deserialize s2 := by
  have h1 := GetInt_length ht
  have h2 := deserializeSwitch_length hs
  have hnil : ser ≠ [] := by
    intro h; rw [h] at h1; simp at h1
  unfold Query.deserialize
  rw [deserializeLoop, if_neg hnil, ht]
  simp only [if_neg hne, hs]
  exact deserializeLoop_fuel _ _ _ _ (by omega) (by omega)

theorem deserialize_end (q : Query) (rest : List Byte) :
    q.deserialize (PutInt QueryEnd ++ rest) = .ok (q, rest) := by
  have hnil : PutInt QueryEnd ++ rest ≠ [] := by
    intro h; have := congrArg List.length h; simp [length_PutInt] at this
  unfold Query.deserialize
  rw [deserializeLoop, if_neg hnil, GetInt_PutInt _ _ (by decide)]
  simp


/-! ## Theorems: reading back single records -/

theorem deserialize_putEntry (q : Query) (qe : QueryEntry) (rest : List Byte) (h : qe.ok) :
    q.deserialize (putEntry qe ++ rest) =
      Query.deserialize { q with entries := q.entries ++ [qe] } rest := by
  obtain ⟨hi, h⟩ := h
  cases hd : qe.distinct with
  | true =>
    rw [hd] at h
    simp only [if_true] at h
    obtain ⟨h1, h2, h3⟩ := h
    apply deserialize_step q _ QueryDistinct _ (PutString qe.index ++ rest) rest
    · simp only [putEntry, hd, if_true, List.append_nil, List.append_assoc]
      exact GetInt_PutInt _ _ (by decide)
    · decide
    · simp only [deserializeSwitch, deserializeDistinct, GetString_PutString _ _ hi]
      have : qe = { index := qe.index, distinct := true, condition := CondAny } := by
        cases qe; simp_all
      rw [← this]; rfl
  | false =>
    rw [hd] at h
    simp only [Bool.false_eq_true, if_false] at h
    obtain ⟨h1, h2, h3, h4⟩ := h
    apply deserialize_step q _ QueryCondition _
      (PutString qe.index ++ (PutInt qe.op ++ (PutInt qe.condition ++
        (PutInt qe.values.length ++ (putAll PutValue qe.values ++ rest))))) rest
    · simp only [putEntry, hd, Bool.false_eq_true, if_false, List.append_assoc]
      exact GetInt_PutInt _ _ (by decide)
    · decide
    · simp only [deserializeSwitch, deserializeCondition, if_true, GetString_PutString _ _ hi,
        GetInt_PutInt _ _ h1, GetInt_PutInt _ _ h2]
      rw [GetInt_PutInt _ _ ⟨by omega, by omega⟩]
      simp only
      rw [toUInt32_natCast _ (by omega),
        getN_putAll PutValue GetValue KeyValue.ok GetValue_PutValue _ _ h4]
      have : qe = { index := qe.index, op := qe.op, condition := qe.condition,
                    values := qe.values } := by
        cases qe; simp_all
      simp only
      rw [← this]

theorem deserialize_entries (q : Query) (es : List QueryEntry) (rest : List Byte)
    (h : ∀ qe ∈ es, qe.ok) :
    q.deserialize (putAll putEntry es ++ rest) =
      Query.deserialize { q with entries := q.entries ++ es } rest := by
  induction es generalizing q with
  | nil => cases q; simp [putAll]
  | cons qe es ih =>
    simp only [putAll, List.append_assoc]
    rw [deserialize_putEntry q qe _ (h qe (List.mem_cons_self _ _)),
      ih _ (fun e he => h e (List.mem_cons_of_mem _ he))]
    simp



theorem deserialize_putAgg (q : Query) (a : AggregateEntry) (rest : List Byte) (h : a.ok) :
    q.deserialize (putAgg a ++ rest) =
      Query.deserialize { q with aggregations_ := q.aggregations_ ++ [a] } rest := by
  apply deserialize_step q _ QueryAggregation _ (PutString a.index_ ++ (PutInt a.type_ ++ rest)) rest
  · simp only [putAgg, List.append_assoc]
    exact GetInt_PutInt _ _ (by decide)
  · decide
  · simp [deserializeSwitch, deserializeAggregation, GetString_PutString _ _ h.1,
      GetInt_PutInt _ _ h.2]

theorem deserialize_aggregations (q : Query) (as : List AggregateEntry) (rest : List Byte)
    (h : ∀ a ∈ as, a.ok) :
    q.deserialize (putAll putAgg as ++ rest) =
      Query.deserialize { q with aggregations_ := q.aggregations_ ++ as } rest := by
  induction as generalizing q with
  | nil => cases q; simp [putAll]
  | cons a as ih =>
    simp only [putAll, List.append_assoc]
    rw [deserialize_putAgg q a _ (h a (List.mem_cons_self _ _)),
      ih _ (fun e he => h e (List.mem_cons_of_mem _ he))]
    simp

theorem deserialize_putJoinEntry (q : Query) (e : QueryJoinEntry) (rest : List Byte)
    (h : e.ok) :
    q.deserialize (putJoinEntry e ++ rest) =
      Query.deserialize { q with joinEntries_ := q.joinEntries_ ++ [e] } rest := by
  obtain ⟨h1, h2, h3, h4⟩ := h
  apply deserialize_step q _ QueryJoinOn _
    (PutInt e.op_ ++ (PutInt e.condition_ ++ (PutString e.index_ ++ (PutString e.joinIndex_ ++ rest))))
    rest
  · simp only [putJoinEntry, List.append_assoc]
    exact GetInt_PutInt _ _ (by decide)
  · decide
  · simp [deserializeSwitch, deserializeJoinOn, GetString_PutString _ _ h3,
      GetString_PutString _ _ h4, GetInt_PutInt _ _ h1, GetInt_PutInt _ _ h2]

theorem deserialize_joinEntries (q : Query) (es : List QueryJoinEntry) (rest : List Byte)
    (h : ∀ e ∈ es, e.ok) :
    q.deserialize (putAll putJoinEntry es ++ rest) =
      Query.deserialize { q with joinEntries_ := q.joinEntries_ ++ es } rest := by
  induction es generalizing q with
  | nil => cases q; simp [putAll]
  | cons a as ih =>
    simp only [putAll, List.append_assoc]
    rw [deserialize_putJoinEntry q a _ (h a (List.mem_cons_self _ _)),
      ih _ (fun e he => h e (List.mem_cons_of_mem _ he))]
    simp

theorem deserialize_putSelectFilter (q : Query) (sf : Str) (rest : List Byte)
    (h : sf.length < 2147483648) :
    q.deserialize (putSelectFilter sf ++ rest) =
      Query.deserialize { q with selectFilter_ := q.selectFilter_ ++ [sf] } rest := by
  apply deserialize_step q _ QuerySelectFilter _ (PutString sf ++ rest) rest
  · simp only [putSelectFilter, List.append_assoc]
    exact GetInt_PutInt _ _ (by decide)
  · decide
  · simp [deserializeSwitch, deserializeSelectFilter, GetString_PutString _ _ h]

theorem deserialize_selectFilters (q : Query) (sfs : List Str) (rest : List Byte)
    (h : ∀ sf ∈ sfs, sf.length < 2147483648) :
    q.deserialize (putAll putSelectFilter sfs ++ rest) =
      Query.deserialize { q with selectFilter_ := q.selectFilter_ ++ sfs } rest := by
  induction sfs generalizing q with
  | nil => cases q; simp [putAll]
  | cons a as ih =>
    simp only [putAll, List.append_assoc]
    rw [deserialize_putSelectFilter q a _ (h a (List.mem_cons_self _ _)),
      ih _ (fun e he => h e (List.mem_cons_of_mem _ he))]
    simp

theorem deserialize_sortIndex (q : Query) (sortBy : Str) (desc : Bool) (vs : List KeyValue)
    (rest : List Byte) (h1 : sortBy.length < 2147483648) (h2 : vs.length < 2147483648)
    (h3 : ∀ v ∈ vs, v.ok) :
    q.deserialize (PutInt QuerySortIndex ++ (PutString sortBy ++ (PutInt (if desc then 1 else 0) ++
        (PutInt vs.length ++ (putAll PutValue vs ++ rest))))) =
      Query.deserialize { q with sortBy := sortBy, sortDirDesc := desc,
                                 forcedSortOrder := q.forcedSortOrder ++ vs } rest := by
  apply deserialize_step q _ QuerySortIndex _ _ rest (GetInt_PutInt _ _ (by decide)) (by decide)
  simp only [deserializeSwitch, deserializeSortIndex, GetString_PutString _ _ h1]
  rw [GetInt_PutInt _ _ (by cases desc <;> decide)]
  simp only
  rw [GetInt_PutInt _ _ ⟨by omega, by omega⟩]
  simp only
  rw [toUInt32_natCast _ (by omega),
    getN_putAll PutValue GetValue KeyValue.ok GetValue_PutValue _ _ h3]
  cases desc <;> simp

theorem deserialize_int (q : Query) (tag v : Int) (set : Int → Query) (rest : List Byte)
    (htag : isInt32 tag) (hne : tag ≠ QueryEnd)
    (hsw : ∀ s, deserializeSwitch q tag s = deserializeInt set s) :
    q.deserialize (PutInt tag ++ (PutInt v ++ rest)) =
      (set (toInt32 (toUInt32 v))).deserialize rest := by
  apply deserialize_step q _ tag _ _ rest (GetInt_PutInt _ _ htag) hne
  rw [hsw]
  simp [deserializeInt, GetInt_PutInt_raw]

theorem deserialize_debugLevel (q : Query) (v : Int) (rest : List Byte) (h : isInt32 v) :
    q.deserialize (PutInt QueryDebugLevel ++ (PutInt v ++ rest)) =
      Query.deserialize { q with debugLevel := v } rest := by
  rw [deserialize_int q QueryDebugLevel v (fun v => { q with debugLevel := v }) rest
    (by decide) (by decide) (fun s => by simp [deserializeSwitch]), toInt32_toUInt32 v h]

theorem deserialize_reqTotal (q : Query) (v : Int) (rest : List Byte) (h : isInt32 v) :
    q.deserialize (PutInt QueryReqTotal ++ (PutInt v ++ rest)) =
      Query.deserialize { q with calcTotal := v } rest := by
  rw [deserialize_int q QueryReqTotal v (fun v => { q with calcTotal := v }) rest
    (by decide) (by decide) (fun s => by simp [deserializeSwitch]), toInt32_toUInt32 v h]

theorem deserialize_limit (q : Query) (n : Nat) (rest : List Byte) (h : n < 4294967296) :
    q.deserialize (PutInt QueryLimit ++ (PutInt n ++ rest)) =
      Query.deserialize { q with count := n } rest := by
  rw [deserialize_int q QueryLimit n (fun v => { q with count := toUInt32 v }) rest
    (by decide) (by decide) (fun s => by simp [deserializeSwitch])]
  rw [toUInt32_natCast n h, toUInt32_toInt32 n h]

theorem deserialize_offset (q : Query) (n : Nat) (rest : List Byte) (h : n < 4294967296) :
    q.deserialize (PutInt QueryOffset ++ (PutInt n ++ rest)) =
      Query.deserialize { q with start := n } rest := by
  rw [deserialize_int q QueryOffset n (fun v => { q with start := toUInt32 v }) rest
    (by decide) (by decide) (fun s => by simp [deserializeSwitch])]
  rw [toUInt32_natCast n h, toUInt32_toInt32 n h]


theorem deserialize_putSortIndex (q0 q : Query) (tail : List Byte)
    (h4 : q.sortBy.length < 2147483648) (h5 : q.forcedSortOrder.length < 2147483648)
    (h6 : ∀ v ∈ q.forcedSortOrder, v.ok) (hs : q.sortOk)
    (a1 : q0.sortBy = []) (a2 : q0.sortDirDesc = false) (a3 : q0.forcedSortOrder = []) :
    q0.deserialize (putSortIndex q ++ tail) =
      Query.deserialize { q0 with sortBy := q.sortBy, sortDirDesc := q.sortDirDesc,
                                  forcedSortOrder := q.forcedSortOrder } tail := by
  unfold putSortIndex
  by_cases hsb : q.sortBy = []
  · obtain ⟨b1, b2⟩ := hs hsb
    rw [if_neg (by simpa using hsb), hsb, b1, b2]
    cases q0; simp_all
  · rw [if_pos hsb]
    simp only [List.append_assoc]
    rw [deserialize_sortIndex _ _ _ _ _ h4 h5 h6, a3]
    rfl

theorem deserialize_putLimitOffset (q0 q : Query) (tail : List Byte)
    (h9 : q.count < 4294967296) (h10 : q.start < 4294967296) (hc : q.count ≠ 0)
    (a1 : q0.start = 0) :
    q0.deserialize (putLimitOffset q Normal ++ tail) =
      Query.deserialize { q0 with count := q.count, start := q.start } tail := by
  unfold putLimitOffset
  simp only [Nat.zero_and, if_true, if_pos hc, List.append_assoc]
  rw [deserialize_limit _ _ _ h9]
  by_cases hst : q.start = 0
  · rw [if_neg (by simpa using hst), hst]
    cases q0; simp_all
  · rw [if_pos hst]
    simp only [List.append_assoc]
    rw [deserialize_offset _ _ _ h10]

theorem deserialize_putReqTotal (q0 q : Query) (tail : List Byte)
    (h11 : isInt32 q.calcTotal) (a1 : q0.calcTotal = 0) :
    q0.deserialize (putReqTotal q ++ tail) =
      Query.deserialize { q0 with calcTotal := q.calcTotal } tail := by
  unfold putReqTotal
  by_cases hst : q.calcTotal = 0
  · rw [if_neg (by simpa using hst), hst]
    cases q0; simp_all
  · rw [if_pos hst]
    simp only [List.append_assoc]
    rw [deserialize_reqTotal _ _ _ h11]

theorem deserialize_serializeFields (q : Query) (joinType : Int) (rest : List Byte)
    (h : q.fieldsOk) (hs : q.sortOk) (hc : q.count ≠ 0) :
    (match GetString (serializeFields q Normal ++ rest) with
     | .error e => (.error e : Rd Query)
     | .ok (ns, ser1) => Query.deserialize { Query.new ns with joinType := joinType } ser1) =
      (.ok (q.decoded joinType, rest) : Rd Query) := by
  obtain ⟨h1, h2, h3, h4, h5, h6, h7, h8, h9, h10, h11, h12⟩ := h
  simp only [serializeFields, List.append_assoc, GetString_PutString _ _ h1]
  dsimp only [Query.new]
  rw [deserialize_entries _ _ _ h2]; dsimp only
  rw [deserialize_aggregations _ _ _ h3]; dsimp only
  rw [deserialize_putSortIndex _ q _ h4 h5 h6 hs rfl rfl rfl]; dsimp only
  rw [deserialize_joinEntries _ _ _ h7]; dsimp only
  rw [deserialize_debugLevel _ _ _ h8]; dsimp only
  rw [deserialize_putLimitOffset _ q _ h9 h10 hc rfl]; dsimp only
  rw [deserialize_putReqTotal _ q _ h11 rfl]; dsimp only
  rw [deserialize_selectFilters _ _ _ h12]; dsimp only
  rw [deserialize_end]
  cases q
  simp [Query.decoded]


/-! ## Theorems: the children -/

theorem deserializeLoop_length (n : Nat) (q q1 : Query) (ser ser1 : List Byte)
    (h : deserializeLoop n q ser = .ok (q1, ser1)) : ser1.length ≤ ser.length := by
  induction n generalizing q ser with
  | zero => simp [deserializeLoop] at h
  | succ n ih =>
    simp only [deserializeLoop] at h
    split at h
    · simp only [Except.ok.injEq, Prod.mk.injEq] at h
      rw [h.2]
    · split at h
      · cases h
      · rename_i t s1 ht
        have := GetInt_length ht
        split at h
        · simp only [Except.ok.injEq, Prod.mk.injEq] at h
          rw [← h.2]; omega
        · split at h
          · cases h
          · rename_i q2 s2 hs
            have := deserializeSwitch_length hs
            have := ih _ _ h
            omega

theorem deserialize_length {q q1 : Query} {ser ser1 : List Byte}
    (h : q.deserialize ser = .ok (q1, ser1)) : ser1.length ≤ ser.length :=
  deserializeLoop_length _ _ _ _ _ h

/-- Any two budgets above the number of unread bytes give `deserializeChildren` the same
result. -/
theorem deserializeChildren_fuel (n m : Nat) (q : Query) (ser : List Byte)
    (hn : ser.length < n) (hm : ser.length < m) :
    deserializeChildren n q ser = deserializeChildren m q ser := by
  induction n generalizing m q ser with
  | zero => omega
  | succ n ih =>
    cases m with
    | zero => omega
    | succ m =>
      simp only [deserializeChildren]
      split
      · rfl
      · split
        · rfl
        · rename_i t s1 ht
          have := GetInt_length ht
          split
          · rfl
          · rename_i ns s2 hns
            have := GetString_length hns
            split
            · rfl
            · rename_i q1 s3 hq
              have := deserialize_length hq
              split
              · exact ih m _ s3 (by omega) (by omega)
              · exact ih m _ s3 (by omega) (by omega)

/-- One pass of the loop of `Deserialize` over a block that can be read. -/
theorem deserializeChildren_step (q q1 : Query) (joinType : Int) (ns : Str)
    (ser s1 s2 s3 : List Byte) (h1 : GetInt ser = .ok (joinType, s1))
    (h2 : GetString s1 = .ok (ns, s2))
    (h3 : Query.deserialize { Query.new ns with joinType := joinType } s2 = .ok (q1, s3)) :
    deserializeChildren (ser.length + 1) q ser =
      deserializeChildren (s3.length + 1)
        (if joinType = Merge then
          { q with mergeQueries_ := q.mergeQueries_ ++ [{ q1 with debugLevel := q.debugLevel }] }
         else
          { q with joinQueries_ := q.joinQueries_ ++ [{ q1 with debugLevel := q.debugLevel }] })
        s3 := by
  have l1 := GetInt_length h1
  have l2 := GetString_length h2
  have l3 := deserialize_length h3
  have hnil : ser ≠ [] := by
    intro h; rw [h] at l1; simp at l1
  rw [deserializeChildren, if_neg hnil, h1]
  simp only [h2, h3]
  split
  · exact deserializeChildren_fuel _ _ _ _ (by omega) (by omega)
  · exact deserializeChildren_fuel _ _ _ _ (by omega) (by omega)

theorem deserializeChildren_putBlock (q c : Query) (rest : List Byte) (h : c.blockOk) :
    deserializeChildren ((putBlock c ++ rest).length + 1) q (putBlock c ++ rest) =
      deserializeChildren (rest.length + 1)
        (if c.joinType = Merge then
          { q with mergeQueries_ := q.mergeQueries_ ++ [c.adopted q.debugLevel] }
         else
          { q with joinQueries_ := q.joinQueries_ ++ [c.adopted q.debugLevel] })
        rest := by
  obtain ⟨h1, h2, h3, h4⟩ := h
  have e1 : GetInt (putBlock c ++ rest) = .ok (c.joinType, serializeFields c Normal ++ rest) := by
    simp only [putBlock, List.append_assoc]
    exact GetInt_PutInt _ _ h1
  have e2 := deserialize_serializeFields c c.joinType rest h2 h3 h4
  split at e2
  · cases e2
  · rename_i ns s2 hns
    rw [deserializeChildren_step q _ _ _ _ _ _ _ e1 hns e2]
    rfl


theorem putAll_append {α : Type} (put : α → List Byte) (xs ys : List α) :
    putAll put (xs ++ ys) = putAll put xs ++ putAll put ys := by
  induction xs with
  | nil => rfl
  | cons x xs ih => simp [putAll, ih]

theorem deserializeChildren_blocks (q : Query) (cs : List Query) (h : ∀ c ∈ cs, c.blockOk) :
    deserializeChildren ((putAll putBlock cs).length + 1) q (putAll putBlock cs) =
      .ok { q with
        joinQueries_ := q.joinQueries_ ++
          (cs.filter (fun c => decide (c.joinType ≠ Merge))).map (Query.adopted q.debugLevel),
        mergeQueries_ := q.mergeQueries_ ++
          (cs.filter (fun c => decide (c.joinType = Merge))).map (Query.adopted q.debugLevel) } := by
  induction cs generalizing q with
  | nil => cases q; simp [putAll, deserializeChildren]
  | cons c cs ih =>
    have hc := h c (List.mem_cons_self _ _)
    have e := deserializeChildren_putBlock q c (putAll putBlock cs) hc
    simp only [putAll]
    rw [e, ih _ (fun d hd => h d (List.mem_cons_of_mem _ hd))]
    by_cases hm : c.joinType = Merge
    · cases q; simp [hm]
    · cases q; simp [hm]

mutual
theorem Serialize_flat : ∀ q : Query,
    q.Serialize Normal = serializeFields q Normal ++
      putAll putBlock (flatList q.joinQueries_ ++ flatList q.mergeQueries_)
  | .mk jq mq .. => by
    simp only [Query.Serialize, Nat.zero_and, if_true, putAll_append, List.append_assoc]
    rw [serializeChildren_flat jq, serializeChildren_flat mq]
termination_by structural q => q
theorem serializeChildren_flat : ∀ cs : List Query,
    serializeChildren cs = putAll putBlock (flatList cs)
  | [] => rfl
  | c :: cs => by
    simp only [serializeChildren, flatList, putAll_append]
    rw [Serialize_flat c, serializeChildren_flat cs]
    cases c
    simp [Query.flat, putAll, putBlock, putAll_append]
termination_by structural l => l
end


/-- Reading back what `Serialize` wrote for a tree of queries of any depth: the root gets
its own members, and every query below it becomes a child of the root, in the order of the
blocks, sorted into the two lists by its join kind. -/
theorem Deserialize_Serialize_flat (q : Query) (h : q.fieldsOk) (hs : q.sortOk)
    (hc : q.count ≠ 0)
    (hch : ∀ c ∈ flatList q.joinQueries_ ++ flatList q.mergeQueries_, c.blockOk) :
    Query.Deserialize Query.fresh (q.Serialize Normal) =
      .ok { q.decoded LeftJoin with
        joinQueries_ :=
          ((flatList q.joinQueries_ ++ flatList q.mergeQueries_).filter
            (fun c => decide (c.joinType ≠ Merge))).map (Query.adopted q.debugLevel),
        mergeQueries_ :=
          ((flatList q.joinQueries_ ++ flatList q.mergeQueries_).filter
            (fun c => decide (c.joinType = Merge))).map (Query.adopted q.debugLevel) } := by
  have e := deserialize_serializeFields q LeftJoin
    (putAll putBlock (flatList q.joinQueries_ ++ flatList q.mergeQueries_)) h hs hc
  rw [Serialize_flat, Query.Deserialize]
  split at e
  · cases e
  · rename_i ns s1 hns
    have e' : Query.deserialize { Query.fresh with _namespace := ns } s1 =
        .ok (q.decoded LeftJoin, putAll putBlock (flatList q.joinQueries_ ++ flatList q.mergeQueries_)) := e
    simp only [e']
    rw [deserializeChildren_blocks _ _ hch]
    cases q
    simp [Query.decoded]

theorem flatList_leaves (cs : List Query)
    (h : ∀ c ∈ cs, c.joinQueries_ = [] ∧ c.mergeQueries_ = []) : flatList cs = cs := by
  induction cs with
  | nil => rfl
  | cons c cs ih =>
    have hc := h c (List.mem_cons_self _ _)
    rw [flatList, ih (fun d hd => h d (List.mem_cons_of_mem _ hd))]
    cases c
    simp only at hc
    simp [Query.flat, hc.1, hc.2, flatList]

theorem adopted_childOk (debugLevel : Int) (c : Query) (h : c.childOk debugLevel) :
    c.adopted debugLevel = c := by
  obtain ⟨h1, h2, h3, h4, h5⟩ := h
  cases c
  simp_all [Query.adopted, Query.decoded]

theorem map_adopted (debugLevel : Int) (cs : List Query) (h : ∀ c ∈ cs, c.childOk debugLevel) :
    cs.map (Query.adopted debugLevel) = cs := by
  induction cs with
  | nil => rfl
  | cons c cs ih =>
    rw [List.map_cons, adopted_childOk _ _ (h c (List.mem_cons_self _ _)),
      ih (fun d hd => h d (List.mem_cons_of_mem _ hd))]


/-! ## Theorems: what the loops leave alone -/

theorem getN_result_length {α : Type} (get : List Byte → Rd α) (n : Nat) (ser ser1 : List Byte)
    (vs : List α) (h : getN get n ser = .ok (vs, ser1)) : vs.length = n := by
  induction n generalizing ser vs with
  | zero =>
    simp only [getN, Except.ok.injEq, Prod.mk.injEq] at h
    rw [← h.1]; rfl
  | succ n ih =>
    simp only [getN] at h
    split at h
    · cases h
    · split at h
      · cases h
      · rename_i vs1 s2 hvs
        simp only [Except.ok.injEq, Prod.mk.injEq] at h
        obtain ⟨rfl, rfl⟩ := h
        rw [List.length_cons, ih _ _ hvs]

theorem deserializeInt_sameFrame {q q1 : Query} {set : Int → Query} {ser ser1 : List Byte}
    (h : deserializeInt set ser = .ok (q1, ser1)) (hset : ∀ v, q.sameFrame (set v)) :
    q.sameFrame q1 := by
  unfold deserializeInt at h
  split at h
  · cases h
  · simp only [Except.ok.injEq, Prod.mk.injEq] at h
    rw [← h.1]; exact hset _

theorem deserializeSwitch_sameFrame {q q1 : Query} {t : Int} {ser ser1 : List Byte}
    (h : deserializeSwitch q t ser = .ok (q1, ser1)) : q.sameFrame q1 := by
  unfold deserializeSwitch at h
  repeat' split at h
  · unfold deserializeCondition at h
    repeat' split at h
    all_goals try contradiction
    simp only [Except.ok.injEq, Prod.mk.injEq] at h
    rw [← h.1]; exact ⟨rfl, rfl, rfl, rfl, rfl⟩
  · unfold deserializeAggregation at h
    repeat' split at h
    all_goals try contradiction
    simp only [Except.ok.injEq, Prod.mk.injEq] at h
    rw [← h.1]; exact ⟨rfl, rfl, rfl, rfl, rfl⟩
  · unfold deserializeDistinct at h
    repeat' split at h
    all_goals try contradiction
    simp only [Except.ok.injEq, Prod.mk.injEq] at h
    rw [← h.1]; exact ⟨rfl, rfl, rfl, rfl, rfl⟩
  · unfold deserializeSortIndex at h
    repeat' split at h
    all_goals try contradiction
    simp only [Except.ok.injEq, Prod.mk.injEq] at h
    rw [← h.1]; exact ⟨rfl, rfl, rfl, rfl, rfl⟩
  · unfold deserializeJoinOn at h
    repeat' split at h
    all_goals try contradiction
    simp only [Except.ok.injEq, Prod.mk.injEq] at h
    rw [← h.1]; exact ⟨rfl, rfl, rfl, rfl, rfl⟩
  · exact deserializeInt_sameFrame h (fun _ => ⟨rfl, rfl, rfl, rfl, rfl⟩)
  · exact deserializeInt_sameFrame h (fun _ => ⟨rfl, rfl, rfl, rfl, rfl⟩)
  · exact deserializeInt_sameFrame h (fun _ => ⟨rfl, rfl, rfl, rfl, rfl⟩)
  · exact deserializeInt_sameFrame h (fun _ => ⟨rfl, rfl, rfl, rfl, rfl⟩)
  · unfold deserializeSelectFilter at h
    repeat' split at h
    all_goals try contradiction
    simp only [Except.ok.injEq, Prod.mk.injEq] at h
    rw [← h.1]; exact ⟨rfl, rfl, rfl, rfl, rfl⟩
  · simp only [Except.ok.injEq, Prod.mk.injEq] at h
    rw [← h.1]; exact ⟨rfl, rfl, rfl, rfl, rfl⟩

theorem deserializeLoop_sameFrame (n : Nat) (q q1 : Query) (ser ser1 : List Byte)
    (h : deserializeLoop n q ser = .ok (q1, ser1)) : q.sameFrame q1 := by
  induction n generalizing q ser with
  | zero => simp [deserializeLoop] at h
  | succ n ih =>
    simp only [deserializeLoop] at h
    split at h
    · simp only [Except.ok.injEq, Prod.mk.injEq] at h
      rw [← h.1]; exact ⟨rfl, rfl, rfl, rfl, rfl⟩
    · split at h
      · cases h
      · split at h
        · simp only [Except.ok.injEq, Prod.mk.injEq] at h
          rw [← h.1]; exact ⟨rfl, rfl, rfl, rfl, rfl⟩
        · split at h
          · cases h
          · rename_i q2 s2 hs
            obtain ⟨a1, a2, a3, a4, a5⟩ := deserializeSwitch_sameFrame hs
            obtain ⟨b1, b2, b3, b4, b5⟩ := ih _ _ h
            exact ⟨b1.trans a1, b2.trans a2, b3.trans a3, b4.trans a4, b5.trans a5⟩

theorem deserialize_sameFrame {q q1 : Query} {ser ser1 : List Byte}
    (h : q.deserialize ser = .ok (q1, ser1)) : q.sameFrame q1 :=
  deserializeLoop_sameFrame _ _ _ _ _ h

/-- The loop of `Deserialize` adds to the two lists of children the blocks of the stream,
in their order. -/
theorem deserializeChildren_readBlocks (n : Nat) (q q1 : Query) (ser : List Byte)
    (h : deserializeChildren n q ser = .ok q1) :
    ∃ blocks, readBlocks n q.debugLevel ser = .ok blocks ∧
      q1.joinQueries_ = q.joinQueries_ ++
        (blocks.filter (fun b => decide (b.1 ≠ Merge))).map Prod.snd ∧
      q1.mergeQueries_ = q.mergeQueries_ ++
        (blocks.filter (fun b => decide (b.1 = Merge))).map Prod.snd ∧
      q1.debugLevel = q.debugLevel ∧
      ∀ b ∈ blocks, b.2.joinType = b.1 ∧ b.2.debugLevel = q.debugLevel := by
  induction n generalizing q ser with
  | zero => simp [deserializeChildren] at h
  | succ n ih =>
    simp only [deserializeChildren] at h
    simp only [readBlocks]
    split at h
    · simp only [Except.ok.injEq] at h
      rw [← h]
      rename_i hnil
      exact ⟨[], by simp [hnil], by simp, by simp, rfl, by simp⟩
    · rename_i hnil
      rw [if_neg hnil]
      split at h
      · cases h
      · rename_i jt s1 hjt
        split at h
        · cases h
        · rename_i ns s2 hns
          split at h
          · cases h
          · rename_i c s3 hc
            have hf := (deserialize_sameFrame hc).1
            simp only at hf
            split at h
            · rename_i hm
              obtain ⟨blocks, e1, e2, e3, e4, e5⟩ := ih _ _ h
              simp only at e1 e2 e3 e4 e5
              refine ⟨(jt, { c with debugLevel := q.debugLevel }) :: blocks, ?_, ?_, ?_, e4, ?_⟩
              · simp only [e1]
              · rw [e2]; simp [hm]
              · rw [e3]; simp [hm]
              · intro b hb
                rcases List.mem_cons.mp hb with rfl | hb
                · exact ⟨hf, rfl⟩
                · exact e5 b hb
            · rename_i hm
              obtain ⟨blocks, e1, e2, e3, e4, e5⟩ := ih _ _ h
              simp only at e1 e2 e3 e4 e5
              refine ⟨(jt, { c with debugLevel := q.debugLevel }) :: blocks, ?_, ?_, ?_, e4, ?_⟩
              · simp only [e1]
              · rw [e2]; simp [hm]
              · rw [e3]; simp [hm]
              · intro b hb
                rcases List.mem_cons.mp hb with rfl | hb
                · exact ⟨hf, rfl⟩
                · exact e5 b hb


/-! ## Theorems: counting and layout -/

theorem length_flat_pos (c : Query) :
    1 + (flatList c.joinQueries_).length + (flatList c.mergeQueries_).length = c.flat.length := by
  cases c
  simp [Query.flat]
  omega

theorem length_flatList_ge (cs : List Query) : cs.length ≤ (flatList cs).length := by
  induction cs with
  | nil => simp [flatList]
  | cons c cs ih =>
    have := length_flat_pos c
    simp only [flatList, List.length_cons, List.length_append]
    omega

theorem length_flatList_gt (cs : List Query)
    (h : ∃ c ∈ cs, c.joinQueries_ ≠ [] ∨ c.mergeQueries_ ≠ []) :
    cs.length < (flatList cs).length := by
  induction cs with
  | nil => simp at h
  | cons c cs ih =>
    have h1 := length_flat_pos c
    have h2 := length_flatList_ge cs
    have h3 := length_flatList_ge c.joinQueries_
    have h4 := length_flatList_ge c.mergeQueries_
    simp only [flatList, List.length_cons, List.length_append]
    obtain ⟨d, hd, hne⟩ := h
    rcases List.mem_cons.mp hd with rfl | hd
    · have : 0 < d.joinQueries_.length + d.mergeQueries_.length := by
        rcases hne with hne | hne
        · have := List.length_pos.mpr hne; omega
        · have := List.length_pos.mpr hne; omega
      omega
    · have := ih ⟨d, hd, hne⟩
      omega

theorem length_filter_kinds (l : List Query) :
    (l.filter (fun c => decide (c.joinType ≠ Merge))).length +
      (l.filter (fun c => decide (c.joinType = Merge))).length = l.length := by
  induction l with
  | nil => rfl
  | cons a l ih =>
    rw [List.filter_cons, List.filter_cons]
    by_cases h : a.joinType = Merge
    · have h1 : decide (a.joinType ≠ Merge) = false := by simp [h]
      have h2 : decide (a.joinType = Merge) = true := by simp [h]
      rw [h1, h2]
      simp only [if_true, Bool.false_eq_true, if_false, List.length_cons]
      omega
    · have h1 : decide (a.joinType ≠ Merge) = true := by simp [h]
      have h2 : decide (a.joinType = Merge) = false := by simp [h]
      rw [h1, h2]
      simp only [if_true, Bool.false_eq_true, if_false, List.length_cons]
      omega


theorem putAll_map {α β : Type} (put : β → List Byte) (g : α → β) (l : List α) :
    putAll put (l.map g) = putAll (fun a => put (g a)) l := by
  induction l with
  | nil => rfl
  | cons a l ih => simp [putAll, ih]

theorem putAll_congr {α : Type} (f g : α → List Byte) (l : List α) (h : ∀ a, f a = g a) :
    putAll f l = putAll g l := by
  have : f = g := funext h
  rw [this]

theorem serializeChildren_putAll (cs : List Query) :
    serializeChildren cs = putAll (fun c => PutInt c.joinType ++ c.Serialize Normal) cs := by
  induction cs with
  | nil => rfl
  | cons c cs ih => simp [serializeChildren, putAll, ih]

theorem putRecord_entryRecord (qe : QueryEntry) : putRecord (entryRecord qe) = putEntry qe := by
  unfold putRecord entryRecord putEntry
  cases qe.distinct <;> simp

theorem putAll_wireRecords (q : Query) :
    PutString q._namespace ++ putAll putRecord (wireRecords q) ++ PutInt QueryEnd =
      serializeFields q Normal := by
  unfold wireRecords serializeFields putSortIndex putLimitOffset putReqTotal
  simp only [putAll_append, putAll_map, List.append_assoc, Nat.zero_and, if_true]
  rw [putAll_congr _ putEntry q.entries putRecord_entryRecord,
    putAll_congr _ putAgg q.aggregations_ (fun a => by simp [putRecord, putAgg]),
    putAll_congr _ putJoinEntry q.joinEntries_ (fun a => by simp [putRecord, putJoinEntry]),
    putAll_congr _ putSelectFilter q.selectFilter_ (fun a => by simp [putRecord, putSelectFilter])]
  by_cases h1 : q.sortBy = [] <;> by_cases h2 : q.count = 0 <;> by_cases h3 : q.start = 0 <;>
    by_cases h4 : q.calcTotal = 0 <;> simp [h1, h2, h3, h4, putAll, putRecord]

theorem wireRecords_tags (q : Query) : ∀ r ∈ wireRecords q, r.1 ∈ recordTags ∧ r.1 ≠ QueryEnd := by
  intro r hr
  unfold wireRecords at hr
  simp only [List.mem_append, List.mem_map, List.mem_singleton] at hr
  have key : r.1 ∈ recordTags → r.1 ∈ recordTags ∧ r.1 ≠ QueryEnd := by
    intro h
    refine ⟨h, ?_⟩
    intro he
    rw [he] at h
    revert h
    decide
  apply key
  rcases hr with ((((((((⟨qe, _, rfl⟩ | ⟨a, _, rfl⟩) | hr) | ⟨e, _, rfl⟩) | rfl) | hr) | hr) | hr) | ⟨sf, _, rfl⟩)
  · unfold entryRecord
    cases qe.distinct <;> simp [recordTags]
  · simp [recordTags]
  · split at hr
    · rw [List.mem_singleton.mp hr]; simp [recordTags]
    · cases hr
  · simp [recordTags]
  · simp [recordTags]
  · split at hr
    · rw [List.mem_singleton.mp hr]; simp [recordTags]
    · cases hr
  · split at hr
    · rw [List.mem_singleton.mp hr]; simp [recordTags]
    · cases hr
  · split at hr
    · rw [List.mem_singleton.mp hr]; simp [recordTags]
    · cases hr
  · simp [recordTags]


/-! ## Theorems: the budget of the loop is never used up -/

theorem takeWhile_append_stop (p : Byte → Bool) (cs rest : Str) (h1 : cs.all p = true)
    (h2 : stopsAt p rest = true) :
    (cs ++ rest).takeWhile p = cs ∧ (cs ++ rest).dropWhile p = rest := by
  induction cs with
  | nil =>
    cases rest with
    | nil => simp
    | cons c rest =>
      simp only [stopsAt, Bool.not_eq_true'] at h2
      simp [List.takeWhile, List.dropWhile, h2]
  | cons c cs ih =>
    simp only [List.all_cons, Bool.and_eq_true] at h1
    have := ih h1.2
    simp [List.takeWhile, List.dropWhile, h1.1, this.1, this.2]

theorem skip_space_of_stop (cur : Str) (h : stopsAt isSpace cur = true) : skip_space cur = cur := by
  cases cur with
  | nil => rfl
  | cons c cur =>
    simp only [stopsAt, Bool.not_eq_true'] at h
    simp [skip_space, List.dropWhile, h]

theorem isNameStart_not_space (c : Byte) (h : isNameStart c = true) : isSpace c = false := by
  simp only [isNameStart, isSpace, Bool.or_eq_true, Bool.and_eq_true, decide_eq_true_eq,
    Bool.or_eq_false_iff, decide_eq_false_iff_not, Fin.ext_iff] at h ⊢
  have e1 : ((32 : Byte) : Nat) = 32 := rfl
  have e2 : ((9 : Byte) : Nat) = 9 := rfl
  have e3 : ((10 : Byte) : Nat) = 10 := rfl
  have e4 : ((13 : Byte) : Nat) = 13 := rfl
  have e5 : ((95 : Byte) : Nat) = 95 := rfl
  rw [e5] at h
  rw [e1, e2, e3, e4]
  omega

theorem isDigit_not_space (c : Byte) (h : isDigit c = true) : isSpace c = false := by
  simp only [isDigit, isSpace, Bool.or_eq_true, Bool.and_eq_true, decide_eq_true_eq,
    Bool.or_eq_false_iff, decide_eq_false_iff_not, Fin.ext_iff] at h ⊢
  have e1 : ((32 : Byte) : Nat) = 32 := rfl
  have e2 : ((9 : Byte) : Nat) = 9 := rfl
  have e3 : ((10 : Byte) : Nat) = 10 := rfl
  have e4 : ((13 : Byte) : Nat) = 13 := rfl
  rw [e1, e2, e3, e4]
  omega

theorem isDigit_not_nameStart (c : Byte) (h : isDigit c = true) : isNameStart c = false := by
  simp only [isDigit, isNameStart, Bool.or_eq_true, Bool.and_eq_true, decide_eq_true_eq,
    Bool.or_eq_false_iff, Bool.and_eq_false_iff, decide_eq_false_iff_not, Fin.ext_iff] at h ⊢
  have e5 : ((95 : Byte) : Nat) = 95 := rfl
  rw [e5]
  omega

theorem next_token_name (nm rest : Str) (skip : Bool) (h1 : isName nm = true)
    (h2 : stopsAt isNameChar rest = true) :
    next_token (nm ++ rest) skip =
      (⟨.TokenName, nm⟩, if skip then skip_space rest else rest) := by
  cases nm with
  | nil => simp [isName] at h1
  | cons c cs =>
    simp only [isName, Bool.and_eq_true] at h1
    have hs : skip_space (c :: cs ++ rest) = c :: (cs ++ rest) := by
      apply skip_space_of_stop
      simp [stopsAt, isNameStart_not_space c h1.1]
    have ht := takeWhile_append_stop isNameChar cs rest h1.2 h2
    simp only [next_token, hs, h1.1, if_true, ht.1, ht.2]

theorem next_token_number (k rest : Str) (skip : Bool) (h1 : isNumber k = true)
    (h2 : stopsAt isDigit rest = true) :
    next_token (k ++ rest) skip =
      (⟨.TokenNumber, k⟩, if skip then skip_space rest else rest) := by
  cases k with
  | nil => simp [isNumber] at h1
  | cons c cs =>
    simp only [isNumber, Bool.and_eq_true] at h1
    have hs : skip_space (c :: cs ++ rest) = c :: (cs ++ rest) := by
      apply skip_space_of_stop
      simp [stopsAt, isDigit_not_space c h1.1]
    have ht := takeWhile_append_stop isDigit cs rest h1.2 h2
    simp only [next_token, hs, isDigit_not_nameStart c h1.1, h1.1, if_true, ht.1, ht.2,
      Bool.false_eq_true, if_false]

theorem next_token_blank (cur : Str) (skip : Bool) :
    next_token (32 :: cur) skip = next_token cur skip := by
  have : skip_space (32 :: cur) = skip_space cur := rfl
  simp only [next_token, this]

theorem next_token_comma (cur : Str) (skip : Bool) :
    next_token (44 :: cur) skip =
      (⟨.TokenSymbol, str ","⟩, if skip then skip_space cur else cur) := rfl

theorem isName_ne_nil (nm : Str) (h : isName nm = true) : nm ≠ [] := by
  cases nm with
  | nil => simp [isName] at h
  | cons c cs => simp

theorem stopsAt_name (p : Byte → Bool) (nm rest : Str) (h : isName nm = true)
    (hp : ∀ c, isNameStart c = true → p c = false) : stopsAt p (nm ++ rest) = true := by
  cases nm with
  | nil => simp [isName] at h
  | cons c cs =>
    simp only [isName, Bool.and_eq_true] at h
    simp [stopsAt, hp c h.1]

theorem stopsAt_commaList (gs : List Str) (tail : Str) (h : stopsAt isNameChar tail = true) :
    stopsAt isNameChar (commaList gs ++ tail) = true := by
  cases gs with
  | nil => exact h
  | cons g gs => rfl

theorem selectFilterLoop_names (fs : List Str) (f tail : Str) (q : Query) (n : Nat)
    (hn : fs.length < n) (hfs : ∀ g ∈ fs, isName g = true)
    (h1 : tail ≠ []) (h2 : stopsAt isNameChar tail = true)
    (h3 : (peek_token tail).text ≠ str ",") :
    selectFilterLoop n ⟨.TokenName, f⟩ (commaList fs ++ tail) q =
      some (peek_token tail, tail, { q with selectFilter_ := q.selectFilter_ ++ f :: fs }) := by
  induction fs generalizing f q n with
  | nil =>
    cases n with
    | zero => simp at hn
    | succ n =>
      cases tail with
      | nil => exact absurd rfl h1
      | cons c tail =>
        simp only [commaList, List.nil_append, selectFilterLoop, tokenizer_end, List.isEmpty_cons,
          Bool.false_eq_true, if_false]
        rw [if_pos h3]
  | cons g gs ih =>
    cases n with
    | zero => simp at hn
    | succ n =>
      have hg := hfs g (List.mem_cons_self _ _)
      have e0 : commaList (g :: gs) ++ tail = 44 :: (g ++ (commaList gs ++ tail)) := by
        simp only [commaList, List.append_assoc]; rfl
      have e1 : peek_token (44 :: (g ++ (commaList gs ++ tail))) = ⟨.TokenSymbol, str ","⟩ := rfl
      have e2 : (next_token (44 :: (g ++ (commaList gs ++ tail)))).2 = g ++ (commaList gs ++ tail) := by
        rw [next_token_comma]
        exact skip_space_of_stop _ (stopsAt_name _ _ _ hg isNameStart_not_space)
      have e3 := next_token_name g (commaList gs ++ tail) false hg (stopsAt_commaList gs tail h2)
      rw [e0, selectFilterLoop]
      simp only [tokenizer_end, List.isEmpty_cons, Bool.false_eq_true, if_false, e1, e2, e3,
        ne_eq, not_true_eq_false]
      rw [ih g _ n (by simpa using hn) (fun x hx => hfs x (List.mem_cons_of_mem _ hx))]
      simp


theorem stopsAt_number (p : Byte → Bool) (k rest : Str) (h : isNumber k = true)
    (hp : ∀ c, isDigit c = true → p c = false) : stopsAt p (k ++ rest) = true := by
  cases k with
  | nil => simp [isNumber] at h
  | cons c cs =>
    simp only [isNumber, Bool.and_eq_true] at h
    simp [stopsAt, hp c h.1]

/-- The clause loop on `where <cond> order by s desc limit k`. -/
theorem selectClauseLoop_tail (ParseWhere : WhereParser) (cond s k : Str) (q q1 : Query)
    (v : Int) (n : Nat) (hs : isName s = true) (hk : isNumber k = true)
    (hv : stoi k = some v)
    (hpw : ParseWhere (skip_space (cond ++ orderTail s k)) q = .ok (orderTail s k, q1)) :
    selectClauseLoop ParseWhere (n + 4) (str "where " ++ (cond ++ orderTail s k)) q =
      (.ret 0, { q1 with sortBy := s, sortDirDesc := true, count := toUInt32 v }) := by
  -- the token `where`
  have a1 : next_token (str "where " ++ (cond ++ orderTail s k)) =
      (⟨.TokenName, str "where"⟩, skip_space (cond ++ orderTail s k)) :=
    next_token_name (str "where") (32 :: (cond ++ orderTail s k)) true (by decide) rfl
  -- the tokens `order` and `by`
  have b0 : orderTail s k =
      32 :: (str "order" ++ (32 :: (str "by" ++ (32 :: (s ++ (str " desc limit " ++ k)))))) := rfl
  have b1 : next_token (orderTail s k) =
      (⟨.TokenName, str "order"⟩, str "by" ++ (32 :: (s ++ (str " desc limit " ++ k)))) := by
    rw [b0, next_token_blank]
    exact next_token_name (str "order") _ true (by decide) rfl
  have b2 : (next_token (str "by" ++ (32 :: (s ++ (str " desc limit " ++ k))))).2 =
      s ++ (str " desc limit " ++ k) := by
    rw [next_token_name (str "by") (32 :: (s ++ (str " desc limit " ++ k))) true (by decide) rfl]
    exact skip_space_of_stop _ (stopsAt_name _ _ _ hs isNameStart_not_space)
  -- the sort field
  have b3 : next_token (s ++ (str " desc limit " ++ k)) false =
      (⟨.TokenName, s⟩, str " desc limit " ++ k) :=
    next_token_name s _ false hs rfl
  -- the token `desc`
  have c0 : str " desc limit " ++ k = 32 :: (str "desc" ++ (32 :: (str "limit" ++ (32 :: k)))) :=
    rfl
  have c1 : next_token (str " desc limit " ++ k) =
      (⟨.TokenName, str "desc"⟩, str "limit" ++ (32 :: k)) := by
    rw [c0, next_token_blank]
    exact next_token_name (str "desc") _ true (by decide) rfl
  -- the token `limit` and the number
  have d1 : next_token (str "limit" ++ (32 :: k)) = (⟨.TokenName, str "limit"⟩, k) := by
    rw [next_token_name (str "limit") (32 :: k) true (by decide) rfl]
    have : skip_space (32 :: k) = k :=
      skip_space_of_stop k (by simpa using stopsAt_number isSpace k [] hk isDigit_not_space)
    simp only [if_true, this]
  have d2 : next_token k = (⟨.TokenNumber, k⟩, []) := by
    have := next_token_number k [] true hk rfl
    simpa using this
  have n1 : str "where " ++ (cond ++ orderTail s k) ≠ [] := by
    intro h; have := congrArg List.length h; simp [str] at this
  have n2 : orderTail s k ≠ [] := by rw [b0]; simp
  have n3 : str "limit" ++ (32 :: k) ≠ [] := by
    intro h; have := congrArg List.length h; simp [str] at this
  have w1 : str "order" ≠ str "where" := by decide
  have w2 : str "order" ≠ str "limit" := by decide
  have w3 : str "order" ≠ str "offset" := by decide
  have w4 : str "limit" ≠ str "where" := by decide
  -- first pass: `where`
  rw [selectClauseLoop]
  simp only [tokenizer_end, List.isEmpty_eq_true, n1, if_false, a1, if_true, hpw]
  -- second pass: `order by s desc`
  rw [selectClauseLoop]
  simp only [tokenizer_end, List.isEmpty_eq_true, n2, if_false, b1, w1, w2, w3, if_true, b2, b3,
    ne_eq, not_true_eq_false, peek_token, c1, or_true]
  -- third pass: `limit k`
  rw [selectClauseLoop]
  simp only [tokenizer_end, List.isEmpty_eq_true, n3, if_false, d1, w4, if_true, d2, ne_eq,
    not_true_eq_false, hv]
  -- fourth pass: the end of the text
  rw [selectClauseLoop]
  simp [tokenizer_end]


theorem length_commaList (fs : List Str) : fs.length ≤ (commaList fs).length := by
  induction fs with
  | nil => simp
  | cons g gs ih =>
    simp only [commaList, List.length_cons, List.length_append]
    have : (str ",").length = 1 := rfl
    omega

theorem stoi_of_le (k : Str) (h : digitsValue 0 k ≤ 2147483647) :
    stoi k = some ((digitsValue 0 k : Nat) : Int) := by
  simp [stoi, h]

theorem commaList_ne_nil (m : Str) (ms : List Str) : commaList (m :: ms) ≠ [] := by
  simp [commaList, str]

theorem describeLoop_names (ns : List Str) (n : Str) (ty : TokenType) (q : Query) (fuel : Nat)
    (hfuel : ns.length < fuel) (hns : ∀ g ∈ ns, isName g = true) :
    describeLoop fuel ⟨ty, n⟩ (commaList ns) q =
      (.ret 0, { q with namespacesNames_ := q.namespacesNames_ ++ n :: ns, describe := true }) := by
  induction ns generalizing n ty q fuel with
  | nil =>
    cases fuel with
    | zero => simp at hfuel
    | succ fuel =>
      have e1 : peek_token ([] : Str) = ⟨.TokenEnd, []⟩ := rfl
      have e2 : next_token ([] : Str) false = (⟨.TokenEnd, []⟩, []) := rfl
      have e3 : ([] : Str) ≠ str "," := by decide
      simp only [commaList, describeLoop, e1, e2, ne_eq, e3, not_false_eq_true, if_true,
        List.length_nil, not_true_eq_false, if_false]
  | cons m ms ih =>
    cases fuel with
    | zero => simp at hfuel
    | succ fuel =>
      have hm := hns m (List.mem_cons_self _ _)
      have e0 : commaList (m :: ms) = 44 :: (m ++ commaList ms) := rfl
      have e1 : peek_token (44 :: (m ++ commaList ms)) = ⟨.TokenSymbol, str ","⟩ := rfl
      have e2 : (next_token (44 :: (m ++ commaList ms))).2 = m ++ commaList ms := by
        rw [next_token_comma]
        exact skip_space_of_stop _ (stopsAt_name _ _ _ hm isNameStart_not_space)
      have st : stopsAt isNameChar (commaList ms) = true := by
        have := stopsAt_commaList ms [] rfl
        simpa using this
      have e3 := next_token_name m (commaList ms) false hm st
      rw [e0, describeLoop]
      simp only [e1, e2, e3, ne_eq, not_true_eq_false, if_false, Bool.false_eq_true]
      cases ms with
      | nil =>
        simp [commaList, tokenizer_end]
      | cons k ks =>
        have hne : tokenizer_end (commaList (k :: ks)) = false := by
          simp [tokenizer_end, commaList, str]
        simp only [hne, Bool.false_eq_true, if_false]
        rw [ih m .TokenName _ fuel (by simpa using hfuel)
          (fun x hx => hns x (List.mem_cons_of_mem _ hx))]
        simp

/-- `Parse` on `select f1,...,fn` followed by a text whose first token is neither a comma
nor `from`: the error for the missing `from` is thrown with the text of that token, and the
names are in the projection list of the query. -/
theorem selectParse_missing_from (ParseWhere : WhereParser) (q : Query) (f : Str) (fs : List Str)
    (tail : Str) (hf : isName f = true) (hfs : ∀ g ∈ fs, isName g = true) (h1 : tail ≠ [])
    (h2 : stopsAt isNameChar tail = true) (h3 : (next_token tail).1.text ≠ str ",")
    (h4 : (next_token tail).1.text ≠ str "from") :
    Query.Parse ParseWhere q (str "select " ++ (joinComma (f :: fs) ++ tail)) =
      (.thrown ⟨.errParams,
          str "Expected 'FROM', but found '" ++ (next_token tail).1.text ++ str "' in query"⟩,
        { q with selectFilter_ := q.selectFilter_ ++ f :: fs }) := by
  have a0 : str "select " ++ (joinComma (f :: fs) ++ tail) =
      str "select" ++ (32 :: (f ++ (commaList fs ++ tail))) := by
    simp only [joinComma, List.append_assoc]; rfl
  have a1 : next_token (str "select " ++ (joinComma (f :: fs) ++ tail)) =
      (⟨.TokenName, str "select"⟩, f ++ (commaList fs ++ tail)) := by
    rw [a0, next_token_name (str "select") (32 :: (f ++ (commaList fs ++ tail))) true
      (by decide) rfl]
    have : skip_space (32 :: (f ++ (commaList fs ++ tail))) = f ++ (commaList fs ++ tail) :=
      skip_space_of_stop _ (stopsAt_name _ _ _ hf isNameStart_not_space)
    simp only [if_true, this]
  have a2 : next_token (f ++ (commaList fs ++ tail)) false =
      (⟨.TokenName, f⟩, commaList fs ++ tail) :=
    next_token_name f _ false hf (stopsAt_commaList fs tail h2)
  have a3 : f ≠ str "*" := by
    intro h; rw [h] at hf; revert hf; decide
  have hloop := selectFilterLoop_names fs f tail q ((commaList fs ++ tail).length + 1)
    (by have := length_commaList fs; simp only [List.length_append]; omega) hfs h1 h2
    (by rw [peek_token]; exact h3)
  have c1 : str "select" ≠ str "describe" := by decide
  simp only [Query.Parse, a1, c1, if_false, if_true, Query.selectParse, a2, ne_eq, a3,
    not_false_eq_true, hloop, peek_token, h4]

/-! ## Theorems: the renderer -/

theorem noNul_of_all (s : Str) (h : s.all (fun c => decide (c ≠ 0)) = true) : noNul s := by
  intro c hc
  have := List.all_eq_true.mp h c hc
  simpa using this

theorem noNul_c_str (s : Str) : noNul (c_str s) := by
  intro c hc
  have := List.mem_takeWhile_imp hc
  simpa using this

theorem c_str_of_noNul (s : Str) (h : noNul s) : c_str s = s := by
  unfold c_str
  rw [List.takeWhile_eq_self_iff]
  intro c hc
  simpa using h c hc

theorem c_str_append (l s : Str) (h : noNul l) : c_str (l ++ s) = l ++ c_str s := by
  induction l with
  | nil => rfl
  | cons c l ih =>
    have hc : c ≠ 0 := h c (List.mem_cons_self _ _)
    have hl : noNul l := fun d hd => h d (List.mem_cons_of_mem _ hd)
    simp only [c_str, List.cons_append, List.takeWhile_cons, ne_eq, hc, not_false_eq_true,
      decide_True, if_true, List.cons.injEq, true_and]
    exact ih hl

theorem noNul_append {a b : Str} (ha : noNul a) (hb : noNul b) : noNul (a ++ b) := by
  intro c hc
  rcases List.mem_append.mp hc with h | h
  · exact ha c h
  · exact hb c h

theorem noNul_take (n : Nat) {a : Str} (ha : noNul a) : noNul (a.take n) :=
  fun c hc => ha c (List.mem_of_mem_take hc)

theorem dumpAggregations_false (as : List AggregateEntry) :
    dumpAggregations false as = commaList (as.map aggExpr) := by
  induction as with
  | nil => rfl
  | cons a as ih =>
    have e : (if a.type_ = AggAvg then str "AVG(" else if a.type_ = AggSum then str "SUM("
        else str "<?> (") = (if a.type_ = AggSum then str "SUM(" else if a.type_ = AggAvg
        then str "AVG(" else str "<?> (") := by
      by_cases h1 : a.type_ = AggAvg
      · have : a.type_ ≠ AggSum := by rw [h1]; decide
        simp [h1]
      · simp [h1]
    simp only [dumpAggregations, e, ih, List.map_cons, commaList, aggExpr, List.append_assoc,
      Bool.false_eq_true, if_false]

theorem dumpAggregations_true (a : AggregateEntry) (as : List AggregateEntry) :
    dumpAggregations true (a :: as) = joinComma ((a :: as).map aggExpr) := by
  have e : (if a.type_ = AggAvg then str "AVG(" else if a.type_ = AggSum then str "SUM("
      else str "<?> (") = (if a.type_ = AggSum then str "SUM(" else if a.type_ = AggAvg
      then str "AVG(" else str "<?> (") := by
    by_cases h1 : a.type_ = AggAvg
    · have : a.type_ ≠ AggSum := by rw [h1]; decide
      simp [h1]
    · simp [h1]
  simp only [dumpAggregations, e, dumpAggregations_false, List.map_cons, joinComma, aggExpr,
    List.append_assoc, if_true, List.nil_append]

theorem dumpSelectFilter_false (fs : List Str) :
    dumpSelectFilter false fs = commaList fs := by
  induction fs with
  | nil => rfl
  | cons f fs ih =>
    simp only [dumpSelectFilter, ih, commaList, List.append_assoc, Bool.false_eq_true, if_false]

theorem dumpSelectFilter_true (f : Str) (fs : List Str) :
    dumpSelectFilter true (f :: fs) = joinComma (f :: fs) := by
  simp only [dumpSelectFilter, dumpSelectFilter_false, joinComma, if_true, List.nil_append]

/-- The string `filt` that the loops of `Dump` build is the projection of the spec. -/
theorem dumpFilt_eq_projection (q : Query) : dumpFilt q = projection q := by
  unfold dumpFilt projection
  cases ha : q.aggregations_ with
  | cons a as => simp [dumpAggregations_true]
  | nil =>
    cases hf : q.selectFilter_ with
    | cons f fs => simp [dumpSelectFilter_true]
    | nil => simp

/-- What `Dump` formats, before the buffer cuts it, is the full rendering. -/
theorem Dump_eq_take (toString : WhereRenderer) (condNames : Int → Str) (q : Query) :
    q.Dump toString condNames = (fullRendering toString condNames q).take 4095 := by
  have e1 : (if q.sortBy.length ≠ 0 then str "ORDER BY " ++ q.sortBy else []) =
      (if q.sortBy ≠ [] then str "ORDER BY " ++ q.sortBy else []) := by
    cases q.sortBy <;> simp
  have e2 : c_str (if q.sortBy ≠ [] then str "ORDER BY " ++ q.sortBy else []) =
      (if q.sortBy ≠ [] then str "ORDER BY " ++ c_str q.sortBy else []) := by
    split
    · exact c_str_append _ _ (noNul_of_all _ rfl)
    · rfl
  have e3 : c_str (if q.sortDirDesc then str " DESC " else []) =
      (if q.sortDirDesc then str " DESC " else []) := by
    cases q.sortDirDesc <;> rfl
  have e4 : c_str (if q.calcTotal ≠ 0 then str " REQTOTAL " else []) =
      (if q.calcTotal ≠ 0 then str " REQTOTAL " else []) := by
    split <;> rfl
  have hfmt : format
      [.lit (str "SELECT "), .s (dumpFilt q), .lit (str " FROM "), .s q._namespace,
       .lit (str " "), .s (toString q), .s (q.DumpJoined toString condNames),
       .s (q.DumpMerged toString),
       .s (if q.sortBy.length ≠ 0 then str "ORDER BY " ++ q.sortBy else []),
       .s (if q.sortDirDesc then str " DESC " else []),
       .s (dumpLim q),
       .s (if q.calcTotal ≠ 0 then str " REQTOTAL " else [])] =
      fullRendering toString condNames q := by
    simp only [format, e1, e2, e3, e4, dumpFilt_eq_projection, fullRendering, dumpHead,
      List.append_assoc, List.append_nil]
  have hn : noNul (fullRendering toString condNames q) := by
    unfold fullRendering dumpHead
    refine noNul_append (noNul_append (noNul_append (noNul_append ?_ ?_) ?_) (noNul_c_str _)) ?_
    · refine noNul_append (noNul_append (noNul_append (noNul_append (noNul_append
        (noNul_append (noNul_append (noNul_of_all _ rfl) (noNul_c_str _)) (noNul_of_all _ rfl))
        (noNul_c_str _)) (noNul_of_all _ rfl)) (noNul_c_str _)) (noNul_c_str _)) (noNul_c_str _)
    · split
      · exact noNul_append (noNul_of_all _ rfl) (noNul_c_str _)
      · exact fun _ h => absurd h (List.not_mem_nil _)
    · cases q.sortDirDesc <;> exact noNul_of_all _ rfl
    · split <;> exact noNul_of_all _ rfl
  unfold Query.Dump snprintf
  rw [hfmt]
  exact c_str_of_noNul _ (noNul_take _ hn)


theorem c_str_dumpLim (q : Query) (h : q.start ≠ 0 ∨ q.count ≠ UINT_MAX) :
    ∃ kw rest, (kw = str "OFFSET" ∨ kw = str "LIMIT") ∧ c_str (dumpLim q) = kw ++ rest := by
  unfold dumpLim
  by_cases hs : q.start = 0
  · have hc : q.count ≠ UINT_MAX := by
      rcases h with h | h
      · exact absurd hs h
      · exact h
    refine ⟨str "LIMIT", 32 :: c_str (to_string q.count), Or.inr rfl, ?_⟩
    rw [if_neg (by simpa using hs), if_pos hc, List.nil_append,
      c_str_append _ _ (noNul_of_all (str "LIMIT ") rfl)]
    rfl
  · refine ⟨str "OFFSET", 32 :: c_str (to_string q.start ++ str " " ++
      (if q.count ≠ UINT_MAX then str "LIMIT " ++ to_string q.count else [])), Or.inl rfl, ?_⟩
    rw [if_pos hs, List.append_assoc, List.append_assoc,
      c_str_append _ _ (noNul_of_all (str "OFFSET ") rfl)]
    simp only [List.append_assoc]
    rfl

/-! ## Theorems: the claims about the wire codec -/


/-- C1 (as amended): a query whose members fit the wire types, with a limit other than 0,
with a sort direction and forced order only next to a `sortBy`, and whose children are
leaves of the right join kind that carry the root's debug level, is read back by
`Deserialize` on a fresh query as it was written; the root's own join kind and describe
members, which are not on the wire, are those of the fresh query. -/
theorem roundtrip_of_canonical (q : Query) (h : q.fieldsOk) (hs : q.sortOk) (hc : q.count ≠ 0)
    (hj : ∀ c ∈ q.joinQueries_, c.blockOk ∧ c.childOk q.debugLevel ∧ c.joinType ≠ Merge)
    (hm : ∀ c ∈ q.mergeQueries_, c.blockOk ∧ c.childOk q.debugLevel ∧ c.joinType = Merge) :
    Query.Deserialize Query.fresh (q.Serialize Normal) =
      .ok { q with joinType := Query.fresh.joinType, describe := Query.fresh.describe,
                   namespacesNames_ := Query.fresh.namespacesNames_ } := by
  have fj : flatList q.joinQueries_ = q.joinQueries_ :=
    flatList_leaves _ (fun c hc => ⟨(hj c hc).2.1.1, (hj c hc).2.1.2.1⟩)
  have fm : flatList q.mergeQueries_ = q.mergeQueries_ :=
    flatList_leaves _ (fun c hc => ⟨(hm c hc).2.1.1, (hm c hc).2.1.2.1⟩)
  have hch : ∀ c ∈ flatList q.joinQueries_ ++ flatList q.mergeQueries_, c.blockOk := by
    intro c hc
    rw [fj, fm, List.mem_append] at hc
    rcases hc with hc | hc
    · exact (hj c hc).1
    · exact (hm c hc).1
  rw [Deserialize_Serialize_flat q h hs hc hch, fj, fm]
  have a1 : (q.joinQueries_ ++ q.mergeQueries_).filter (fun c => decide (c.joinType ≠ Merge)) =
      q.joinQueries_ := by
    rw [List.filter_append, List.filter_eq_self.mpr (fun c hc => by simpa using (hj c hc).2.2),
      List.filter_eq_nil_iff.mpr (fun c hc => by simpa using (hm c hc).2.2), List.append_nil]
  have a2 : (q.joinQueries_ ++ q.mergeQueries_).filter (fun c => decide (c.joinType = Merge)) =
      q.mergeQueries_ := by
    have b1 : q.joinQueries_.filter (fun c => decide (c.joinType = Merge)) = [] :=
      List.filter_eq_nil_iff.mpr (fun c hc => by simpa using (hj c hc).2.2)
    have b2 : q.mergeQueries_.filter (fun c => decide (c.joinType = Merge)) = q.mergeQueries_ :=
      List.filter_eq_self.mpr (fun c hc => by simpa using (hm c hc).2.2)
    rw [List.filter_append, b1, b2, List.nil_append]
  rw [a1, a2, map_adopted _ _ (fun c hc => (hj c hc).2.1),
    map_adopted _ _ (fun c hc => (hm c hc).2.1)]
  cases q
  simp [Query.decoded, Query.fresh, Query.new]


/-- C1 (witness): the sample query with a joined and a merged child is read back as it was
written. -/
theorem roundtrip_of_canonical_witness :
    Query.Deserialize Query.fresh (sampleQuery.Serialize Normal) =
      .ok { sampleQuery with joinType := Query.fresh.joinType,
                             describe := Query.fresh.describe,
                             namespacesNames_ := Query.fresh.namespacesNames_ } :=
  roundtrip_of_canonical sampleQuery (by decide) (by decide) (by decide) (by decide) (by decide)

/-- C1 (counterexample): two queries that are valid in the sense of the claim and are not
read back as written.  The child of `debugQuery` has the debug level 1 and comes back with
the debug level 0 of the root; `descQuery` has a descending direction and no `sortBy`, and
comes back ascending. -/
theorem roundtrip_counterexample :
    ((∀ c ∈ debugQuery.joinQueries_,
        c.joinQueries_ = [] ∧ c.mergeQueries_ = [] ∧ c.joinType ≠ Merge) ∧
      debugQuery.mergeQueries_ = [] ∧
      debugQuery.joinQueries_.map Query.debugLevel = [1] ∧
      ∃ q, Query.Deserialize Query.fresh (debugQuery.Serialize Normal) = .ok q ∧
        q.joinQueries_.map Query.debugLevel = [0]) ∧
    (descQuery.joinQueries_ = [] ∧ descQuery.mergeQueries_ = [] ∧
      descQuery.sortDirDesc = true ∧
      ∃ q, Query.Deserialize Query.fresh (descQuery.Serialize Normal) = .ok q ∧
        q.sortDirDesc = false) :=
  ⟨⟨by decide, rfl, rfl, _, rfl, rfl⟩, rfl, rfl, rfl, _, rfl, rfl⟩

/-- C2: the bytes `Serialize` writes for a query with the default limit `UINT_MAX`,
offset 0, no total and no `sortBy` hold a `Limit` record (tag, then `UINT_MAX` as an
`int`), and the bytes written for the same query with the limit 0 hold none. -/
theorem default_limit_is_written :
    (Query.new (str "items")).Serialize Normal =
      PutString (str "items") ++ (PutInt QueryDebugLevel ++ PutInt 0) ++
        (PutInt QueryLimit ++ PutInt UINT_MAX) ++ PutInt QueryEnd ∧
    (Query.new (str "items") 0 0).Serialize Normal =
      PutString (str "items") ++ (PutInt QueryDebugLevel ++ PutInt 0) ++ PutInt QueryEnd := by
  decide

/-- C3 (as amended): a tag that is none of the eleven of the tag table is skipped: nothing
is read for it, the query stays as it is, and `deserialize` goes on with the bytes after
the tag as the next record. -/
theorem unknown_tag_skipped (q : Query) (ser ser1 : List Byte) (qtype : Int)
    (h : GetInt ser = .ok (qtype, ser1)) (hk : qtype ∉ recordTags) (he : qtype ≠ QueryEnd) :
    deserializeSwitch q qtype ser1 = .ok (q, ser1) ∧ q.deserialize ser = q.deserialize ser1 := by
  have hs : deserializeSwitch q qtype ser1 = .ok (q, ser1) := by
    simp only [recordTags, List.mem_cons, List.mem_singleton, List.not_mem_nil, or_false,
      not_or] at hk
    obtain ⟨k1, k2, k3, k4, k5, k6, k7, k8, k9, k10⟩ := hk
    simp only [deserializeSwitch, if_neg k1, if_neg k2, if_neg k3, if_neg k4, if_neg k5,
      if_neg k6, if_neg k7, if_neg k8, if_neg k9, if_neg k10]
  exact ⟨hs, deserialize_step q q qtype ser ser1 ser1 h he hs⟩

/-- C3 (witness): the tag 99 at the head of a stream. -/
theorem unknown_tag_skipped_witness :
    deserializeSwitch Query.fresh 99 (PutInt QueryEnd) = .ok (Query.fresh, PutInt QueryEnd) ∧
    Query.fresh.deserialize (PutInt 99 ++ PutInt QueryEnd) =
      Query.fresh.deserialize (PutInt QueryEnd) :=
  unknown_tag_skipped Query.fresh (PutInt 99 ++ PutInt QueryEnd) (PutInt QueryEnd) 99
    rfl (by decide) (by decide)

/-- C3 (counterexample): a stream with the unknown tag 99 is decoded without an error, and
the `Limit` record after the tag is read. -/
theorem unknown_tag_counterexample :
    (99 : Int) ∉ recordTags ∧ (99 : Int) ≠ QueryEnd ∧
    Query.Deserialize Query.fresh unknownTagStream =
      .ok { Query.new (str "items") with count := 5 } :=
  ⟨by decide, by decide, rfl⟩

/-- C4 (as amended): reading back the bytes of a root that has a child with children of
its own succeeds: every query below the root becomes a child of the root itself, in the
order of the blocks and in the list its join kind selects, so the root comes back with
more children than it had, none of which has children. -/
theorem nested_children_flattened (q : Query) (h : q.fieldsOk) (hs : q.sortOk)
    (hc : q.count ≠ 0)
    (hch : ∀ c ∈ flatList q.joinQueries_ ++ flatList q.mergeQueries_, c.blockOk)
    (hn : ∃ c ∈ q.joinQueries_ ++ q.mergeQueries_, c.joinQueries_ ≠ [] ∨ c.mergeQueries_ ≠ []) :
    ∃ q1, Query.Deserialize Query.fresh (q.Serialize Normal) = .ok q1 ∧
      q1.joinQueries_ =
        ((flatList q.joinQueries_ ++ flatList q.mergeQueries_).filter
          (fun c => decide (c.joinType ≠ Merge))).map (Query.adopted q.debugLevel) ∧
      q1.mergeQueries_ =
        ((flatList q.joinQueries_ ++ flatList q.mergeQueries_).filter
          (fun c => decide (c.joinType = Merge))).map (Query.adopted q.debugLevel) ∧
      q.joinQueries_.length + q.mergeQueries_.length <
        q1.joinQueries_.length + q1.mergeQueries_.length ∧
      ∀ c ∈ q1.joinQueries_ ++ q1.mergeQueries_, c.joinQueries_ = [] ∧ c.mergeQueries_ = [] := by
  refine ⟨_, Deserialize_Serialize_flat q h hs hc hch, rfl, rfl, ?_, ?_⟩
  · simp only [List.length_map]
    have e := length_filter_kinds (flatList q.joinQueries_ ++ flatList q.mergeQueries_)
    have g1 := length_flatList_ge q.joinQueries_
    have g2 := length_flatList_ge q.mergeQueries_
    simp only [List.length_append] at e
    obtain ⟨c, hc, hne⟩ := hn
    rcases List.mem_append.mp hc with hc | hc
    · have := length_flatList_gt q.joinQueries_ ⟨c, hc, hne⟩
      omega
    · have := length_flatList_gt q.mergeQueries_ ⟨c, hc, hne⟩
      omega
  · intro c hc
    simp only [List.mem_append, List.mem_map] at hc
    rcases hc with ⟨d, _, rfl⟩ | ⟨d, _, rfl⟩ <;> exact ⟨rfl, rfl⟩

/-- C4 (witness): the root `a` with the child `b` that has the child `c`. -/
theorem nested_children_flattened_witness :
    ∃ q1, Query.Deserialize Query.fresh (nestedQuery.Serialize Normal) = .ok q1 ∧
      q1.joinQueries_ =
        ((flatList nestedQuery.joinQueries_ ++ flatList nestedQuery.mergeQueries_).filter
          (fun c => decide (c.joinType ≠ Merge))).map (Query.adopted nestedQuery.debugLevel) ∧
      q1.mergeQueries_ =
        ((flatList nestedQuery.joinQueries_ ++ flatList nestedQuery.mergeQueries_).filter
          (fun c => decide (c.joinType = Merge))).map (Query.adopted nestedQuery.debugLevel) ∧
      nestedQuery.joinQueries_.length + nestedQuery.mergeQueries_.length <
        q1.joinQueries_.length + q1.mergeQueries_.length ∧
      ∀ c ∈ q1.joinQueries_ ++ q1.mergeQueries_, c.joinQueries_ = [] ∧ c.mergeQueries_ = [] :=
  nested_children_flattened nestedQuery (by decide) (by decide) (by decide) (by decide)
    ⟨_, List.mem_cons_self _ _, Or.inl (List.cons_ne_nil _ _)⟩

/-- C4 (counterexample): the bytes of the root `a`, whose child `b` has the child `c`, are
decoded without an error, and `c` comes back as a second joined child of the root. -/
theorem nested_counterexample :
    (∃ c ∈ nestedQuery.joinQueries_, c.joinQueries_ ≠ []) ∧
    Query.Deserialize Query.fresh (nestedQuery.Serialize Normal) =
      .ok { Query.new (str "a") with
              joinQueries_ := [{ Query.new (str "b") with joinType := InnerJoin },
                               { Query.new (str "c") with joinType := LeftJoin }] } :=
  ⟨⟨_, List.mem_cons_self _ _, List.cons_ne_nil _ _⟩, rfl⟩


/-- C5 (as amended): the `Condition` case does not compare the declared value count with
the condition kind: whatever the kind, when the name, the combinator, the kind, the count
and as many values as the count says can be read, the entry with exactly these values is
appended to `entries`. -/
theorem condition_count_unchecked (q : Query) (index : Str) (op condition count : Int)
    (values : List KeyValue) (ser1 ser2 ser3 ser4 ser5 ser6 : List Byte)
    (h1 : GetString ser1 = .ok (index, ser2)) (h2 : GetInt ser2 = .ok (op, ser3))
    (h3 : GetInt ser3 = .ok (condition, ser4)) (h4 : GetInt ser4 = .ok (count, ser5))
    (h5 : getN GetValue (toUInt32 count) ser5 = .ok (values, ser6)) :
    deserializeSwitch q QueryCondition ser1 =
      .ok ({ q with entries := q.entries ++
              [{ index := index, op := op, condition := condition, values := values }] }, ser6) ∧
    values.length = toUInt32 count := by
  refine ⟨?_, getN_result_length _ _ _ _ _ h5⟩
  simp only [deserializeSwitch, if_true, deserializeCondition, h1, h2, h3, h4, h5]

/-- C5 (witness): a `Range` condition with one value. -/
theorem condition_count_unchecked_witness :
    deserializeSwitch Query.fresh QueryCondition
        (PutString (str "price") ++ PutInt OpAnd ++ PutInt CondRange ++ PutInt 1 ++
          PutValue (.scalar (.int 5))) =
      .ok ({ Query.fresh with entries := Query.fresh.entries ++
              [{ index := str "price", op := OpAnd, condition := CondRange,
                 values := [.scalar (.int 5)] }] }, []) ∧
    [KeyValue.scalar (.int 5)].length = toUInt32 1 :=
  condition_count_unchecked Query.fresh (str "price") OpAnd CondRange 1 [.scalar (.int 5)]
    (PutString (str "price") ++ PutInt OpAnd ++ PutInt CondRange ++ PutInt 1 ++
      PutValue (.scalar (.int 5)))
    (PutInt OpAnd ++ PutInt CondRange ++ PutInt 1 ++ PutValue (.scalar (.int 5)))
    (PutInt CondRange ++ PutInt 1 ++ PutValue (.scalar (.int 5)))
    (PutInt 1 ++ PutValue (.scalar (.int 5))) (PutValue (.scalar (.int 5))) []
    rfl rfl rfl rfl rfl

/-- C5 (counterexample): a stream whose `Range` condition declares and carries one value
is decoded without an error, and the entry with the one value is in `entries`. -/
theorem condition_count_counterexample :
    Query.Deserialize Query.fresh rangeOneStream =
      .ok { Query.new (str "items") with
              entries := [{ index := str "price", op := OpAnd, condition := CondRange,
                            values := [.scalar (.int 5)] }] } :=
  rfl

/-- C6 (as amended): a join kind other than `Merge`, in the enumeration or not, is taken as
it is: when the rest of the block can be read, the child is appended to `joinQueries_`
with that join kind, and the loop goes on behind the block. -/
theorem unknown_join_kind_joined (q q1 : Query) (joinType : Int) (ns : Str)
    (ser ser1 ser2 ser3 : List Byte) (h1 : GetInt ser = .ok (joinType, ser1))
    (hk : joinType ≠ Merge) (h2 : GetString ser1 = .ok (ns, ser2))
    (h3 : Query.deserialize { Query.new ns with joinType := joinType } ser2 = .ok (q1, ser3)) :
    deserializeChildren (ser.length + 1) q ser =
      deserializeChildren (ser3.length + 1)
        { q with joinQueries_ := q.joinQueries_ ++ [{ q1 with debugLevel := q.debugLevel }] }
        ser3 ∧
    q1.joinType = joinType := by
  refine ⟨?_, (deserialize_sameFrame h3).1⟩
  rw [deserializeChildren_step q q1 joinType ns ser ser1 ser2 ser3 h1 h2 h3, if_neg hk]

/-- C6 (witness): a block with the join kind 99. -/
theorem unknown_join_kind_joined_witness :
    deserializeChildren ((PutInt 99 ++ PutString (str "x") ++ PutInt QueryEnd).length + 1)
        (Query.new (str "items")) (PutInt 99 ++ PutString (str "x") ++ PutInt QueryEnd) =
      deserializeChildren (([] : List Byte).length + 1)
        { Query.new (str "items") with
            joinQueries_ := (Query.new (str "items")).joinQueries_ ++
              [{ ({ Query.new (str "x") with joinType := 99 } : Query) with
                   debugLevel := (Query.new (str "items")).debugLevel }] }
        [] ∧
    ({ Query.new (str "x") with joinType := 99 } : Query).joinType = 99 :=
  unknown_join_kind_joined (Query.new (str "items")) { Query.new (str "x") with joinType := 99 }
    99 (str "x") (PutInt 99 ++ PutString (str "x") ++ PutInt QueryEnd)
    (PutString (str "x") ++ PutInt QueryEnd) (PutInt QueryEnd) [] rfl (by decide) rfl rfl

/-- C6 (counterexample): a stream whose child block has the join kind 99 is decoded
without an error, and the child is in `joinQueries_`. -/
theorem unknown_join_kind_counterexample :
    (99 : Int) ∉ [InnerJoin, OrInnerJoin, LeftJoin, Merge] ∧
    Query.Deserialize Query.fresh unknownJoinStream =
      .ok { Query.new (str "items") with
              joinQueries_ := [{ Query.new (str "x") with joinType := 99 }] } :=
  ⟨by decide, rfl⟩

/-- C7: the bytes `Serialize` writes in the default mode are the namespace string, the
tagged records of the query's own fields, one `End` tag, and then for each joined child in
order and after them each merged child in order the join kind as an `int` followed by the
bytes of `Serialize` for the child; no record before the `End` tag has the tag `End`, and
nothing of the query's own fields comes after it. -/
theorem Serialize_layout (q : Query) :
    q.Serialize Normal =
      PutString q._namespace ++ putAll putRecord (wireRecords q) ++ PutInt QueryEnd ++
        putAll (fun c => PutInt c.joinType ++ c.Serialize Normal) q.joinQueries_ ++
        putAll (fun c => PutInt c.joinType ++ c.Serialize Normal) q.mergeQueries_ ∧
    ∀ r ∈ wireRecords q, r.1 ∈ recordTags ∧ r.1 ≠ QueryEnd := by
  refine ⟨?_, wireRecords_tags q⟩
  rw [putAll_wireRecords, ← serializeChildren_putAll, ← serializeChildren_putAll]
  cases q
  simp [Query.Serialize]


/-- C8: when `Deserialize` succeeds on a stream, the stream holds, after the root's field
list, a sequence of child blocks, and the children are the queries of these blocks in
stream order: those read with the join kind `Merge` make up what was added to
`mergeQueries_`, the others what was added to `joinQueries_`, and the `joinType` of each is
the join kind that was read. -/
theorem children_classified (q0 q1 : Query) (ser : List Byte)
    (h : Query.Deserialize q0 ser = .ok q1) :
    ∃ ns ser1 root ser2 blocks,
      GetString ser = .ok (ns, ser1) ∧
      Query.deserialize { q0 with _namespace := ns } ser1 = .ok (root, ser2) ∧
      readBlocks (ser2.length + 1) root.debugLevel ser2 = .ok blocks ∧
      q1.joinQueries_ = root.joinQueries_ ++
        (blocks.filter (fun b => decide (b.1 ≠ Merge))).map Prod.snd ∧
      q1.mergeQueries_ = root.mergeQueries_ ++
        (blocks.filter (fun b => decide (b.1 = Merge))).map Prod.snd ∧
      ∀ b ∈ blocks, b.2.joinType = b.1 := by
  unfold Query.Deserialize at h
  split at h
  · cases h
  · rename_i ns ser1 hns
    split at h
    · cases h
    · rename_i root ser2 hroot
      obtain ⟨blocks, e1, e2, e3, _, e5⟩ := deserializeChildren_readBlocks _ _ _ _ h
      exact ⟨ns, ser1, root, ser2, blocks, hns, hroot, e1, e2, e3, fun b hb => (e5 b hb).1⟩

/-- C8 (witness): a stream with a merged child block before a joined one. -/
theorem children_classified_witness :
    ∃ ns ser1 root ser2 blocks,
      GetString twoChildrenStream = .ok (ns, ser1) ∧
      Query.deserialize { Query.fresh with _namespace := ns } ser1 = .ok (root, ser2) ∧
      readBlocks (ser2.length + 1) root.debugLevel ser2 = .ok blocks ∧
      twoChildrenQuery.joinQueries_ = root.joinQueries_ ++
        (blocks.filter (fun b => decide (b.1 ≠ Merge))).map Prod.snd ∧
      twoChildrenQuery.mergeQueries_ = root.mergeQueries_ ++
        (blocks.filter (fun b => decide (b.1 = Merge))).map Prod.snd ∧
      ∀ b ∈ blocks, b.2.joinType = b.1 :=
  children_classified Query.fresh twoChildrenQuery twoChildrenStream rfl

/-- C9: after a successful `Deserialize` into a query without children, such as a fresh
one, every query in `joinQueries_` and in `mergeQueries_` has the debug level of the root,
whatever the records of its own block said. -/
theorem children_debugLevel (q0 q1 : Query) (ser : List Byte)
    (hj : q0.joinQueries_ = []) (hm : q0.mergeQueries_ = [])
    (h : Query.Deserialize q0 ser = .ok q1) :
    ∀ c ∈ q1.joinQueries_ ++ q1.mergeQueries_, c.debugLevel = q1.debugLevel := by
  unfold Query.Deserialize at h
  split at h
  · cases h
  · rename_i ns ser1 hns
    split at h
    · cases h
    · rename_i root ser2 hroot
      obtain ⟨_, f2, f3, _, _⟩ := deserialize_sameFrame hroot
      simp only [hj, hm] at f2 f3
      obtain ⟨blocks, _, e2, e3, e4, e5⟩ := deserializeChildren_readBlocks _ _ _ _ h
      rw [f2, List.nil_append] at e2
      rw [f3, List.nil_append] at e3
      intro c hc
      rw [e2, e3, e4] at *
      simp only [List.mem_append, List.mem_map, List.mem_filter] at hc
      rcases hc with ⟨b, ⟨hb, _⟩, rfl⟩ | ⟨b, ⟨hb, _⟩, rfl⟩
      · exact (e5 b hb).2
      · exact (e5 b hb).2

/-- C9 (witness): the merged child of `twoChildrenStream` has a record with the debug
level 3 in its block and comes back with the debug level 0 of the root. -/
theorem children_debugLevel_witness :
    Query.Deserialize Query.fresh twoChildrenStream = .ok twoChildrenQuery ∧
    ∀ c ∈ twoChildrenQuery.joinQueries_ ++ twoChildrenQuery.mergeQueries_,
      c.debugLevel = twoChildrenQuery.debugLevel :=
  ⟨rfl, children_debugLevel Query.fresh twoChildrenQuery twoChildrenStream rfl rfl rfl⟩

/-! ## Theorems: the claims about the textual parser -/

/-- C10 (as amended): on a fresh query, `Parse` of the text
`select f1,...,fn from ns where <cond> order by s desc limit k`, with names `f1..fn`, `ns`
and `s` and a number `k` that fits an `int`, returns 0 with the projection `f1..fn` in
order, the namespace `ns`, the sort field `s`, a descending direction, the limit `k` and the
offset 0; the entries are those the WHERE-clause collaborator appends when it reads
`<cond>` and stops before `order`. -/
theorem select_parse (ParseWhere : WhereParser) (f : Str) (fs : List Str)
    (ns cond s k : Str) (es : List QueryEntry)
    (hf : isName f = true) (hfs : ∀ g ∈ fs, isName g = true) (hns : isName ns = true)
    (hs : isName s = true) (hk : isNumber k = true) (hkr : digitsValue 0 k ≤ 2147483647)
    (hpw : ParseWhere (skip_space (cond ++ orderTail s k))
        { Query.fresh with selectFilter_ := f :: fs, _namespace := ns } =
      .ok (orderTail s k,
        { Query.fresh with selectFilter_ := f :: fs, _namespace := ns, entries := es })) :
    Query.Parse ParseWhere Query.fresh (selectText (f :: fs) ns cond s k) =
      (.ret 0, { Query.fresh with selectFilter_ := f :: fs, _namespace := ns, entries := es,
                                  sortBy := s, sortDirDesc := true,
                                  count := digitsValue 0 k, start := 0 }) := by
  -- the text after the projection list, and after the namespace
  obtain ⟨tail, htail⟩ : ∃ tail, tail = str " from " ++ (ns ++ (str " where " ++
      (cond ++ orderTail s k))) := ⟨_, rfl⟩
  have t0 : tail = 32 :: (str "from" ++ (32 :: (ns ++ (str " where " ++
      (cond ++ orderTail s k))))) := by rw [htail]; rfl
  -- the token `select`
  have a0 : selectText (f :: fs) ns cond s k =
      str "select" ++ (32 :: (f ++ (commaList fs ++ tail))) := by
    rw [htail]; simp only [selectText, joinComma, List.append_assoc]; rfl
  have a1 : next_token (selectText (f :: fs) ns cond s k) =
      (⟨.TokenName, str "select"⟩, f ++ (commaList fs ++ tail)) := by
    rw [a0, next_token_name (str "select") (32 :: (f ++ (commaList fs ++ tail))) true
      (by decide) rfl]
    have : skip_space (32 :: (f ++ (commaList fs ++ tail))) = f ++ (commaList fs ++ tail) :=
      skip_space_of_stop _ (stopsAt_name _ _ _ hf isNameStart_not_space)
    simp only [if_true, this]
  -- the first name of the projection list
  have a2 : next_token (f ++ (commaList fs ++ tail)) false =
      (⟨.TokenName, f⟩, commaList fs ++ tail) :=
    next_token_name f _ false hf (stopsAt_commaList fs tail (by rw [t0]; rfl))
  have a3 : f ≠ str "*" := by
    intro h; rw [h] at hf; revert hf; decide
  -- the token `from` and the namespace
  have b1 : next_token tail =
      (⟨.TokenName, str "from"⟩, ns ++ (str " where " ++ (cond ++ orderTail s k))) := by
    rw [t0, next_token_blank,
      next_token_name (str "from") (32 :: (ns ++ (str " where " ++ (cond ++ orderTail s k))))
        true (by decide) rfl]
    have : skip_space (32 :: (ns ++ (str " where " ++ (cond ++ orderTail s k)))) =
        ns ++ (str " where " ++ (cond ++ orderTail s k)) :=
      skip_space_of_stop _ (stopsAt_name _ _ _ hns isNameStart_not_space)
    simp only [if_true, this]
  have b2 : next_token (ns ++ (str " where " ++ (cond ++ orderTail s k))) =
      (⟨.TokenName, ns⟩, str "where " ++ (cond ++ orderTail s k)) := by
    rw [next_token_name ns (str " where " ++ (cond ++ orderTail s k)) true hns rfl]
    rfl
  have b3 : skip_space (str "where " ++ (cond ++ orderTail s k)) =
      str "where " ++ (cond ++ orderTail s k) := rfl
  have hloop := selectFilterLoop_names fs f tail Query.fresh ((commaList fs ++ tail).length + 1)
    (by have := length_commaList fs; simp only [List.length_append]; omega) hfs
    (by rw [t0]; simp) (by rw [t0]; rfl) (by rw [peek_token, b1]; exact (by decide : str "from" ≠ str ","))
  have c1 : str "select" ≠ str "describe" := by decide
  obtain ⟨n, hn⟩ : ∃ n, (str "where " ++ (cond ++ orderTail s k)).length + 1 = n + 4 :=
    ⟨(cond ++ orderTail s k).length + 3, by
      have : (str "where ").length = 6 := rfl
      simp only [List.length_append, this]; omega⟩
  have hclause := selectClauseLoop_tail ParseWhere cond s k _ _ _ n hs hk (stoi_of_le k hkr) hpw
  simp only [Query.Parse, a1, c1, if_false, if_true, Query.selectParse, a2, ne_eq, a3,
    not_false_eq_true, hloop, peek_token, b1, not_true_eq_false, b2, b3, hn]
  refine Eq.trans ?_ (Eq.trans hclause ?_)
  · rfl
  · rw [toUInt32_natCast _ (by omega)]
    rfl


/-- C10 (witness): the example text of the spec, with the sample collaborator. -/
theorem select_parse_witness :
    Query.Parse sampleParseWhere Query.fresh sampleSelect =
      (.ret 0, { Query.fresh with
        selectFilter_ := [str "id", str "name"], _namespace := str "items",
        entries := [{ index := str "price", condition := CondGt,
                      values := [.scalar (.int 100)] }],
        sortBy := str "name", sortDirDesc := true, count := 10, start := 0 }) :=
  select_parse sampleParseWhere (str "id") [str "name"] (str "items") (str "price > 100")
    (str "name") (str "10")
    [{ index := str "price", condition := CondGt, values := [.scalar (.int 100)] }]
    (by decide) (by decide) (by decide) (by decide) (by decide) (by decide) rfl

/-- C10 (counterexample): with the number token `2147483648` after `limit`, which does not
fit an `int`, `Parse` does not return: `std::stoi` throws `std::out_of_range`. -/
theorem select_parse_counterexample :
    isNumber (str "2147483648") = true ∧
    (Query.Parse sampleParseWhere Query.fresh
      (selectText [str "id", str "name"] (str "items") (str "price > 100") (str "name")
        (str "2147483648"))).1 = .outOfRange :=
  ⟨by decide, rfl⟩

/-- C11: on a fresh query, `Parse` of `describe n1,...,nk` with names `n1..nk` (at least
one) returns 0 with `describe = true` and the names in `namespacesNames_`, each once and in
order; and `Parse` of `describe *` returns 0 with `describe = true` and no names. -/
theorem describe_parse (ParseWhere : WhereParser) (n : Str) (ns : List Str)
    (hn : isName n = true) (hns : ∀ g ∈ ns, isName g = true) :
    Query.Parse ParseWhere Query.fresh (describeText (n :: ns)) =
      (.ret 0, { Query.fresh with namespacesNames_ := n :: ns, describe := true }) ∧
    Query.Parse ParseWhere Query.fresh (str "describe *") =
      (.ret 0, { Query.fresh with namespacesNames_ := [], describe := true }) := by
  refine ⟨?_, rfl⟩
  have a0 : describeText (n :: ns) = str "describe" ++ (32 :: (n ++ commaList ns)) := rfl
  have a1 : next_token (describeText (n :: ns)) =
      (⟨.TokenName, str "describe"⟩, n ++ commaList ns) := by
    rw [a0, next_token_name (str "describe") (32 :: (n ++ commaList ns)) true (by decide) rfl]
    have : skip_space (32 :: (n ++ commaList ns)) = n ++ commaList ns :=
      skip_space_of_stop _ (stopsAt_name _ _ _ hn isNameStart_not_space)
    simp only [if_true, this]
  have st : stopsAt isNameChar (commaList ns) = true := by
    have := stopsAt_commaList ns [] rfl
    simpa using this
  have a2 : next_token (n ++ commaList ns) false = (⟨.TokenName, n⟩, commaList ns) :=
    next_token_name n (commaList ns) false hn st
  have a3 : n ≠ str "*" := by
    intro h; rw [h] at hn; revert hn; decide
  have a4 : skip_space (commaList ns) = commaList ns := by
    cases ns with
    | nil => rfl
    | cons m ms => rfl
  have hloop := describeLoop_names ns n .TokenName Query.fresh ((commaList ns).length + 1)
    (by have := length_commaList ns; omega) hns
  simp only [Query.Parse, a1, if_true, Query.describeParse, a2, ne_eq, a3, not_false_eq_true,
    a4, hloop]
  rfl

/-- C11 (witness): the example text of the spec, `describe ns1,ns2`. -/
theorem describe_parse_witness :
    Query.Parse sampleParseWhere Query.fresh (str "describe ns1,ns2") =
      (.ret 0, { Query.fresh with namespacesNames_ := [str "ns1", str "ns2"],
                                  describe := true }) ∧
    Query.Parse sampleParseWhere Query.fresh (str "describe *") =
      (.ret 0, { Query.fresh with namespacesNames_ := [], describe := true }) :=
  describe_parse sampleParseWhere (str "ns1") [str "ns2"] (by decide) (by decide)

/-- C12: after `describe *` nothing more is read: whatever text follows the `*`, `Parse`
returns 0 with `describe = true` and throws no error, so `describe * foo` is accepted and
`foo` is ignored; after a name, the same token `foo` is refused with its text in the
message. -/
theorem describe_star_ignores_rest (ParseWhere : WhereParser) (q : Query) (rest : Str) :
    Query.Parse ParseWhere q (str "describe * " ++ rest) = (.ret 0, { q with describe := true }) ∧
    Query.Parse ParseWhere q (str "describe * foo") = (.ret 0, { q with describe := true }) ∧
    Query.Parse ParseWhere q (str "describe a foo") =
      (.thrown ⟨.errParseSQL, str "Unexpected 'foo' in query"⟩,
        { q with namespacesNames_ := q.namespacesNames_ ++ [str "a"] }) :=
  ⟨rfl, rfl, rfl⟩

/-- C13: when `limit` or `offset` is followed by the name `abc`, `Parse` returns -1: no
`Error` is thrown and nothing refers to `abc`; a wrong token after `order by` is refused
with an `Error` that holds its text. -/
theorem limit_not_a_number_returns (ParseWhere : WhereParser) :
    Query.Parse ParseWhere Query.fresh (str "select * from items limit abc") =
      (.ret (-1), { Query.fresh with _namespace := str "items" }) ∧
    Query.Parse ParseWhere Query.fresh (str "select * from items offset abc") =
      (.ret (-1), { Query.fresh with _namespace := str "items" }) ∧
    Query.Parse ParseWhere Query.fresh (str "select * from items order by 5") =
      (.thrown ⟨.errParseSQL, str "Expected name, but found '5' in query"⟩,
        { Query.fresh with _namespace := str "items" }) :=
  ⟨rfl, rfl, rfl⟩

/-- C14 (as amended): `Parse` fills the query in place and a failure undoes nothing.  When
the first token is neither `describe` nor `select`, nothing has been assigned and the query
is as before; when the failure comes after the projection list `f1,...,fn` (the next token
is neither a comma nor `from`), the query after the error has `f1..fn` appended to its
select fields. -/
theorem parse_failure_keeps_parsed (ParseWhere : WhereParser) (q : Query) (text : Str)
    (f : Str) (fs : List Str) (tail : Str)
    (h0 : (next_token text).1.text ≠ str "describe" ∧ (next_token text).1.text ≠ str "select")
    (hf : isName f = true) (hfs : ∀ g ∈ fs, isName g = true) (h1 : tail ≠ [])
    (h2 : stopsAt isNameChar tail = true) (h3 : (next_token tail).1.text ≠ str ",")
    (h4 : (next_token tail).1.text ≠ str "from") :
    Query.Parse ParseWhere q text =
      (.thrown ⟨.errParams,
          str "Syntax error at or near '" ++ (next_token text).1.text ++ str "'"⟩, q) ∧
    Query.Parse ParseWhere q (str "select " ++ (joinComma (f :: fs) ++ tail)) =
      (.thrown ⟨.errParams,
          str "Expected 'FROM', but found '" ++ (next_token tail).1.text ++ str "' in query"⟩,
        { q with selectFilter_ := q.selectFilter_ ++ f :: fs }) := by
  refine ⟨?_, selectParse_missing_from ParseWhere q f fs tail hf hfs h1 h2 h3 h4⟩
  simp only [Query.Parse, if_neg h0.1, if_neg h0.2]

/-- C14 (witness): `delete x` fails at the first token, `select a,b items` after the
projection list. -/
theorem parse_failure_keeps_parsed_witness :
    Query.Parse sampleParseWhere Query.fresh (str "delete x") =
      (.thrown ⟨.errParams, str "Syntax error at or near 'delete'"⟩, Query.fresh) ∧
    Query.Parse sampleParseWhere Query.fresh (str "select a,b items") =
      (.thrown ⟨.errParams, str "Expected 'FROM', but found 'items' in query"⟩,
        { Query.fresh with selectFilter_ := [str "a", str "b"] }) :=
  parse_failure_keeps_parsed sampleParseWhere Query.fresh (str "delete x") (str "a") [str "b"]
    (str " items") (by decide) (by decide) (by decide) (by decide) (by decide) (by decide)
    (by decide)

/-- C14 (counterexample): `select a,b items` fails with an error and leaves the two
projection fields in the fresh query; `select * from items limit abc` fails with -1 and
leaves the namespace in it. -/
theorem parse_failure_counterexample :
    (∃ e q, Query.Parse sampleParseWhere Query.fresh (str "select a,b items") = (.thrown e, q) ∧
      q.selectFilter_ = [str "a", str "b"] ∧ Query.fresh.selectFilter_ = []) ∧
    (∃ q, Query.Parse sampleParseWhere Query.fresh (str "select * from items limit abc") =
        (.ret (-1), q) ∧
      q._namespace = str "items" ∧ Query.fresh._namespace = []) :=
  ⟨⟨_, _, rfl, rfl, rfl⟩, _, rfl, rfl, rfl⟩

/-- C15: `select * from items order by a desc order by b` is accepted, and the result has
`sortBy = b` with the descending direction of the earlier clause; without the earlier
clause the direction is ascending. -/
theorem order_by_keeps_direction (ParseWhere : WhereParser) :
    Query.Parse ParseWhere Query.fresh (str "select * from items order by a desc order by b") =
      (.ret 0, { Query.fresh with _namespace := str "items", sortBy := str "b",
                                  sortDirDesc := true }) ∧
    Query.Parse ParseWhere Query.fresh (str "select * from items order by b") =
      (.ret 0, { Query.fresh with _namespace := str "items", sortBy := str "b",
                                  sortDirDesc := false }) :=
  ⟨rfl, rfl⟩

/-- C16: for `select * items` the error names `*`, the token read before, and not `items`,
the token found in the place of `from`; after a projection list, as in `select a items`,
the error names `items`. -/
theorem missing_from_after_star (ParseWhere : WhereParser) :
    Query.Parse ParseWhere Query.fresh (str "select * items") =
      (.thrown ⟨.errParams, str "Expected 'FROM', but found '*' in query"⟩, Query.fresh) ∧
    Query.Parse ParseWhere Query.fresh (str "select a items") =
      (.thrown ⟨.errParams, str "Expected 'FROM', but found 'items' in query"⟩,
        { Query.fresh with selectFilter_ := [str "a"] }) :=
  ⟨rfl, rfl⟩

/-! ## Theorems: the claims about the renderer and about the value loop -/

/-- C17: what `Dump` prints starts with `SELECT `, the projection and ` FROM ` (and is cut
at 4095 bytes): the projection is the comma-joined aggregation expressions when there are
aggregations, whatever the select fields are, otherwise the comma-joined select fields
when there are any, otherwise `*`. -/
theorem Dump_projection (toString : WhereRenderer) (condNames : Int → Str) (q : Query) :
    ∃ rest, q.Dump toString condNames =
      (str "SELECT " ++ (c_str (projection q) ++ (str " FROM " ++ rest))).take 4095 := by
  refine ⟨c_str q._namespace ++ (str " " ++ (c_str (toString q) ++
    (c_str (q.DumpJoined toString condNames) ++ (c_str (q.DumpMerged toString) ++
    ((if q.sortBy ≠ [] then str "ORDER BY " ++ c_str q.sortBy else []) ++
    ((if q.sortDirDesc then str " DESC " else []) ++ (c_str (dumpLim q) ++
    (if q.calcTotal ≠ 0 then str " REQTOTAL " else [])))))))), ?_⟩
  rw [Dump_eq_take]
  simp only [fullRendering, dumpHead, List.append_assoc]

/-- C17 (witness): aggregations are printed and the select fields are not; without
aggregations the select fields are printed; without both, `*`. -/
theorem Dump_projection_witness :
    sampleQuery.selectFilter_ = [str "id", str "name"] ∧
    projection sampleQuery = str "SUM(price)" ∧
    projection { sampleQuery with aggregations_ := [] } = str "id,name" ∧
    projection Query.fresh = str "*" ∧
    ∃ rest, sampleQuery.Dump sampleToString sampleCondNames =
      (str "SELECT " ++ (c_str (projection sampleQuery) ++ (str " FROM " ++ rest))).take 4095 :=
  ⟨rfl, by decide, by decide, by decide, Dump_projection sampleToString sampleCondNames sampleQuery⟩

/-- C19: in what `Dump` prints (cut at 4095 bytes), `ORDER BY <sortBy>` is followed at once
by the keyword `OFFSET` or `LIMIT` when the direction is ascending and there is an offset
or a limit, and by ` DESC ` and then the keyword when the direction is descending; ` DESC `
is printed right after the merges, with no `ORDER BY`, when the direction is descending and
`sortBy` is empty; and whenever the direction is descending, whatever `sortBy`, the offset
and the limit are, the text is the head, the `ORDER BY` clause if there is one, ` DESC `,
the offset and limit, and the total marker, while an ascending direction prints the same
text without ` DESC `. -/
theorem Dump_order_adjacent (toString : WhereRenderer) (condNames : Int → Str) (q : Query) :
    (q.sortBy ≠ [] → q.sortDirDesc = false → (q.start ≠ 0 ∨ q.count ≠ UINT_MAX) →
      ∃ kw rest, (kw = str "OFFSET" ∨ kw = str "LIMIT") ∧
        q.Dump toString condNames =
          (dumpHead toString condNames q ++
            (str "ORDER BY " ++ (c_str q.sortBy ++ (kw ++ rest)))).take 4095) ∧
    (q.sortBy ≠ [] → q.sortDirDesc = true → (q.start ≠ 0 ∨ q.count ≠ UINT_MAX) →
      ∃ kw rest, (kw = str "OFFSET" ∨ kw = str "LIMIT") ∧
        q.Dump toString condNames =
          (dumpHead toString condNames q ++
            (str "ORDER BY " ++ (c_str q.sortBy ++ (str " DESC " ++ (kw ++ rest))))).take 4095) ∧
    (q.sortBy = [] → q.sortDirDesc = true →
      ∃ rest, q.Dump toString condNames =
        (dumpHead toString condNames q ++ (str " DESC " ++ rest)).take 4095) ∧
    (q.sortDirDesc = true →
      q.Dump toString condNames =
        (dumpHead toString condNames q ++
          ((if q.sortBy ≠ [] then str "ORDER BY " ++ c_str q.sortBy else []) ++
            (str " DESC " ++
              (c_str (dumpLim q) ++
                (if q.calcTotal ≠ 0 then str " REQTOTAL " else []))))).take 4095) ∧
    (q.sortDirDesc = false →
      q.Dump toString condNames =
        (dumpHead toString condNames q ++
          ((if q.sortBy ≠ [] then str "ORDER BY " ++ c_str q.sortBy else []) ++
            (c_str (dumpLim q) ++
              (if q.calcTotal ≠ 0 then str " REQTOTAL " else [])))).take 4095) := by
  refine ⟨?_, ?_, ?_, ?_, ?_⟩
  · intro h1 h2 h3
    obtain ⟨kw, rest, hkw, he⟩ := c_str_dumpLim q h3
    refine ⟨kw, rest ++ (if q.calcTotal ≠ 0 then str " REQTOTAL " else []), hkw, ?_⟩
    rw [Dump_eq_take]
    simp only [fullRendering, h1, h2, he, ne_eq, not_false_eq_true, if_true, Bool.false_eq_true,
      if_false, List.append_assoc, List.append_nil, List.nil_append]
  · intro h1 h2 h3
    obtain ⟨kw, rest, hkw, he⟩ := c_str_dumpLim q h3
    refine ⟨kw, rest ++ (if q.calcTotal ≠ 0 then str " REQTOTAL " else []), hkw, ?_⟩
    rw [Dump_eq_take]
    simp only [fullRendering, h1, h2, he, ne_eq, not_false_eq_true, if_true,
      List.append_assoc]
  · intro h1 h2
    refine ⟨c_str (dumpLim q) ++ (if q.calcTotal ≠ 0 then str " REQTOTAL " else []), ?_⟩
    rw [Dump_eq_take]
    simp only [fullRendering, h1, h2, ne_eq, not_true_eq_false, if_false, if_true,
      List.append_assoc, List.append_nil]
  · intro h
    rw [Dump_eq_take]
    simp only [fullRendering, h, if_true, List.append_assoc]
  · intro h
    rw [Dump_eq_take]
    simp only [fullRendering, h, Bool.false_eq_true, if_false, List.append_assoc,
      List.append_nil, List.nil_append]

/-- C19 (witness): a query with `ORDER BY name` and an offset, ascending and descending,
a descending query without a sort field, and a descending query with `ORDER BY name` and
neither an offset nor a limit. -/
theorem Dump_order_adjacent_witness :
    (orderAscQuery.Dump sampleToString sampleCondNames =
        str "SELECT * FROM items ORDER BY nameOFFSET 5 LIMIT 7" ∧
      ∃ kw rest, (kw = str "OFFSET" ∨ kw = str "LIMIT") ∧
        orderAscQuery.Dump sampleToString sampleCondNames =
          (dumpHead sampleToString sampleCondNames orderAscQuery ++
            (str "ORDER BY " ++ (c_str orderAscQuery.sortBy ++ (kw ++ rest)))).take 4095) ∧
    (orderDescQuery.Dump sampleToString sampleCondNames =
        str "SELECT * FROM items ORDER BY name DESC OFFSET 5 LIMIT 7" ∧
      ∃ kw rest, (kw = str "OFFSET" ∨ kw = str "LIMIT") ∧
        orderDescQuery.Dump sampleToString sampleCondNames =
          (dumpHead sampleToString sampleCondNames orderDescQuery ++
            (str "ORDER BY " ++ (c_str orderDescQuery.sortBy ++
              (str " DESC " ++ (kw ++ rest))))).take 4095) ∧
    (descOnlyQuery.Dump sampleToString sampleCondNames =
        str "SELECT * FROM items  DESC LIMIT 7" ∧
      ∃ rest, descOnlyQuery.Dump sampleToString sampleCondNames =
        (dumpHead sampleToString sampleCondNames descOnlyQuery ++
          (str " DESC " ++ rest)).take 4095) ∧
    (descNoLimitQuery.Dump sampleToString sampleCondNames =
        str "SELECT * FROM items ORDER BY name DESC " ∧
      descNoLimitQuery.Dump sampleToString sampleCondNames =
        (dumpHead sampleToString sampleCondNames descNoLimitQuery ++
          ((if descNoLimitQuery.sortBy ≠ [] then
              str "ORDER BY " ++ c_str descNoLimitQuery.sortBy else []) ++
            (str " DESC " ++
              (c_str (dumpLim descNoLimitQuery) ++
                (if descNoLimitQuery.calcTotal ≠ 0 then str " REQTOTAL "
                 else []))))).take 4095) ∧
    (orderAscQuery.sortDirDesc = false ∧
      orderAscQuery.Dump sampleToString sampleCondNames =
        (dumpHead sampleToString sampleCondNames orderAscQuery ++
          ((if orderAscQuery.sortBy ≠ [] then
              str "ORDER BY " ++ c_str orderAscQuery.sortBy else []) ++
            (c_str (dumpLim orderAscQuery) ++
              (if orderAscQuery.calcTotal ≠ 0 then str " REQTOTAL " else [])))).take 4095) :=
  ⟨⟨rfl, (Dump_order_adjacent sampleToString sampleCondNames orderAscQuery).1
      (by decide) rfl (by decide)⟩,
   ⟨rfl, (Dump_order_adjacent sampleToString sampleCondNames orderDescQuery).2.1
      (by decide) rfl (by decide)⟩,
   ⟨rfl, (Dump_order_adjacent sampleToString sampleCondNames descOnlyQuery).2.2.1 rfl rfl⟩,
   ⟨rfl, (Dump_order_adjacent sampleToString sampleCondNames descNoLimitQuery).2.2.2.1 rfl⟩,
   ⟨rfl, (Dump_order_adjacent sampleToString sampleCondNames orderAscQuery).2.2.2.2 rfl⟩⟩

/-- C20: the string `Dump` returns is the first `min(4095, L)` bytes of the full rendering
of length `L`: it is never longer than 4095 bytes, and a longer rendering is cut off after
4095 bytes with nothing put in its place. -/
theorem Dump_bounded (toString : WhereRenderer) (condNames : Int → Str) (q : Query) :
    q.Dump toString condNames =
      (fullRendering toString condNames q).take
        (min 4095 (fullRendering toString condNames q).length) ∧
    (q.Dump toString condNames).length ≤ 4095 ∧
    q.Dump toString condNames <+: fullRendering toString condNames q ∧
    (4095 < (fullRendering toString condNames q).length →
      (q.Dump toString condNames).length = 4095) := by
  rw [Dump_eq_take]
  refine ⟨?_, ?_, List.take_prefix _ _, ?_⟩
  · rcases Nat.le_total 4095 (fullRendering toString condNames q).length with h | h
    · rw [Nat.min_eq_left h]
    · rw [Nat.min_eq_right h, List.take_length, List.take_of_length_le h]
  · rw [List.length_take]; omega
  · intro h
    rw [List.length_take]; omega

/-- C20 (witness): the rendering of a query with a namespace of 5000 bytes is cut to 4095
bytes. -/
theorem Dump_bounded_witness :
    4095 < (fullRendering sampleToString sampleCondNames longQuery).length ∧
    (longQuery.Dump sampleToString sampleCondNames).length = 4095 := by
  have h : 4095 < (fullRendering sampleToString sampleCondNames longQuery).length := by
    have e : c_str longQuery._namespace = List.replicate 5000 97 :=
      c_str_of_noNul _ (fun c hc => by
        have := List.eq_of_mem_replicate hc
        rw [this]; decide)
    simp only [fullRendering, dumpHead, List.length_append, e, List.length_replicate]
    omega
  exact ⟨h, (Dump_bounded sampleToString sampleCondNames longQuery).2.2.2 h⟩

end reindexer
